import Mathlib

/-
  Verification of the jsh attribute/relationship binding-and-validation engine
  (validator.go and its helpers) against its natural-language specification.

  The Go code is shallowly embedded:
  * raw JSON bytes are embedded as `Option JSON` (`none` models empty / absent
    bytes, i.e. the `len(j) == 0` branches); malformed bytes are not in the
    universe, but every wrong-shape unmarshal error path is reachable through
    valid JSON of the wrong shape, which takes the same ISE branch;
  * reflected Go model values are embedded as the inductive `MVal`; the
    constructors carry exactly the static-type information the Go code
    inspects through `reflect` (pointer-to-IDObject fields and the two
    supported to-many map types are distinguished from ordinary maps);
  * Go maps are linearized to association lists.  Go's randomized map
    iteration order is fixed to list (insertion) order; this affects only the
    order of "unknown" errors and which of several case-fold-equal keys is
    consumed first, neither of which any claim below depends on;
  * Go runtime panics that are reachable in the embedded fragment (slice
    index out of range in nestedResult, assignment to an entry in a nil map,
    Data[0] on an empty list) are modelled by the explicit result `WRes.crash`;
  * string case operations (EqualFold, ToLower, unicode.IsLetter/IsDigit) are
    modelled at ASCII precision, which is exact on every string any claim
    involves;
  * identifier lists (`IDList = []*IDObject`) are modelled with non-nil
    elements, and the unexported-field panic of `reflect.Value.Interface`
    inside `isZero` is not modelled; no claim involves nil identifier
    entries or unexported fields.
-/

namespace Jsh

/-- A resource identifier object (jsh.IDObject): `{Type, ID string}`. -/
structure IDObject where
  type : String
  id : String
deriving DecidableEq, Repr

/-- A relationship value (jsh.Relationship); only the `Data` identifier list
is consulted by the validator. -/
structure Relationship where
  data : List IDObject
deriving DecidableEq, Repr

/-- Decoded JSON values, standing in for raw `json.RawMessage` bytes. -/
inductive JSON where
  | null
  | str (s : String)
  | num (n : Int)
  | bool (b : Bool)
  | arr (elems : List JSON)
  | obj (fields : List (String × JSON))
deriving Repr

/-- The options carried by one jsh tag directive (`tagOptions`). -/
structure TagOpts where
  required : Bool
deriving DecidableEq, Repr

/-- Embedded `jsh.Error` (error.go): status, code, title, detail, the
`Source.Pointer` value, and the internal ISE message. -/
structure GoError where
  status : Nat
  code : String
  title : String
  detail : String
  sourcePointer : Option String
  ise : String
deriving DecidableEq, Repr

def DefaultErrorDetail : String := "Request failed, something went wrong"

def DefaultErrorTitle : String := "Internal Server Error"

/-- `AttributePointer` (error.go): JSON pointer to an attribute. -/
def AttributePointer (a : String) : String := "/data/attributes/" ++ a

/-- `RelationshipPointer` (error.go): JSON pointer to a relationship. -/
def RelationshipPointer (r : String) : String := "/data/relationships/" ++ r

/-- `ISE` (error.go): a 500 Internal Server Error with an internal message. -/
def ISE (msg : String) : GoError :=
  ⟨500, "", DefaultErrorTitle, DefaultErrorDetail, none, msg⟩

/-- `InputError` (error.go): a 422 error with an attribute source pointer. -/
def InputError (msg attr : String) : GoError :=
  ⟨422, "", "Invalid Attribute", msg, some (AttributePointer attr), ""⟩

/-- `RelationshipError` (error.go): a 422 error with a relationship pointer. -/
def RelationshipError (msg rel : String) : GoError :=
  ⟨422, "", "Invalid Relationship", msg, some (RelationshipPointer rel), ""⟩

/-- `ForbiddenError` (error.go): a 403 error carrying the message as title. -/
def ForbiddenError (msg : String) : GoError :=
  ⟨403, "", msg, "", none, ""⟩

/-- Setting `err.Source = &ErrorSource{Pointer: p}` on an existing error. -/
def withPointer (e : GoError) (p : String) : GoError :=
  ⟨e.status, e.code, e.title, e.detail, some p, e.ise⟩

/-- `toLowerFirstRune` (error.go): lower-case the first rune of a string. -/
def toLowerFirstRune (s : String) : String :=
  match s.data with
  | [] => s
  | a :: rest => String.mk (a.toLower :: rest)

/-- Split a character list on a separator character; always at least one
(possibly empty) segment, matching `strings.SplitN(s, sep, -1)`. -/
def splitChars (sep : Char) : List Char → List (List Char)
  | [] => [[]]
  | c :: rest =>
      match splitChars sep rest with
      | [] => [[]]
      | seg :: segs => if c = sep then [] :: seg :: segs else (c :: seg) :: segs

/-- `strings.SplitN(s, sep, -1)` for the single-character separators the tag
decoder uses. -/
def goSplit (sep : Char) (s : String) : List String :=
  (splitChars sep s.data).map String.mk

/-- `strings.ToLower`, at ASCII precision. -/
def goToLower (s : String) : String :=
  String.mk (s.data.map Char.toLower)

/-- `strings.EqualFold`, at ASCII precision. -/
def eqFold (a b : String) : Bool := goToLower a == goToLower b

/-- The punctuation characters `isValidTag` allows besides letters and digits. -/
def validTagPunct : List Char := "!#$%&()*+-./:<=>?@[]^_{|}~ ".data

/-- `isValidTag` (tag decoder): a tag is valid when non-empty and made of
letters, digits, or the allowed punctuation. `unicode.IsLetter/IsDigit` are
modelled at ASCII precision. -/
def isValidTag (s : String) : Bool :=
  s ≠ "" && s.data.all fun c => validTagPunct.contains c || c.isAlpha || c.isDigit

/-- Association-list insert with overwrite: the Go `map[k] = v` assignment,
linearized to first-occurrence order with last-wins values. -/
def upsert {κ α : Type} [DecidableEq κ] : List (κ × α) → κ → α → List (κ × α)
  | [], k, v => [(k, v)]
  | (k', v') :: t, k, v =>
      if k' = k then (k, v) :: t else (k', v') :: upsert t k v

/-- Association-list lookup: the Go map index expression. -/
def lookupKey {κ α : Type} [DecidableEq κ] : List (κ × α) → κ → Option α
  | [], _ => none
  | (k', v) :: t, k => if k' = k then some v else lookupKey t k

/-- `decodeFieldTags` (tag decoder): split the raw jsh tag on commas, split
each directive on slashes, drop invalid directive names, and record
`required` exactly when the directive has exactly two parts whose second is
`required`.  Directives accumulate into a map (here: an overwrite list). -/
def decodeFieldTags (rawTags : String) : List (String × TagOpts) :=
  (goSplit ',' rawTags).foldl
    (fun result opt =>
      match goSplit '/' opt with
      | [] => result
      | t0 :: restParts =>
          if isValidTag t0 = false then result
          else
            let req : Bool :=
              match restParts with
              | [r1] => r1 == "required"
              | _ => false
            upsert result t0 ⟨req⟩)
    []

mutual
/-- The universe of reflected Go model values the validator walks.  The
constructors record the static-type facts the Go code branches on:
`vRaw` is a `json.RawMessage` field, `vIDObj` a `*jsh.IDObject` field,
`vRelManyStr`/`vRelManyInt` the two supported to-many map types
(`map[string]*IDObject` / `map[int]*IDObject`, with non-nil elements),
while `vMapStr`/`vMapInt` are maps whose element type is not `*IDObject`.
`none` in an `Option` models a nil reference. -/
inductive MVal where
  | vStr (s : String)
  | vInt (n : Int)
  | vBool (b : Bool)
  | vRaw (j : Option JSON)
  | vPtr (v : Option MVal)
  | vIDObj (v : Option IDObject)
  | vSlice (v : Option (List MVal))
  | vArray (elems : List MVal)
  | vMapStr (v : Option (List (String × MVal)))
  | vMapInt (v : Option (List (Int × MVal)))
  | vRelManyStr (v : Option (List (String × IDObject)))
  | vRelManyInt (v : Option (List (Int × IDObject)))
  | vStruct (fields : List MField)

/-- One struct field as seen through `reflect.StructField`: its name, the raw
`json` and `jsh` tag strings (`""` when the tag is absent, exactly as
`Tag.Get` reports), whether it is exported (`PkgPath == ""`), and its value. -/
inductive MField where
  | mk (name : String) (jsonTag : String) (jshTag : String)
       (exported : Bool) (value : MVal)
end

def MField.name : MField → String
  | ⟨n, _, _, _, _⟩ => n

def MField.jsonTag : MField → String
  | ⟨_, j, _, _, _⟩ => j

def MField.jshTag : MField → String
  | ⟨_, _, t, _, _⟩ => t

def MField.exported : MField → Bool
  | ⟨_, _, _, e, _⟩ => e

def MField.value : MField → MVal
  | ⟨_, _, _, _, v⟩ => v

/-- `decodeJSONTag` (tag decoder): split the raw `json` tag on commas and
return the first part; the `len(tags) == 0` fallback to the field name is
preserved from the source even though `strings.SplitN` never returns an
empty slice. -/
def decodeJSONTag (f : MField) : String :=
  let tags := goSplit ',' f.jsonTag
  match tags with
  | [] => f.name
  | t0 :: _ => t0

/-- `strconv.Atoi`: optional single sign followed by one or more ASCII
digits (the int64 range check is not modelled; no claim involves ids near
the overflow boundary). -/
def goAtoi (s : String) : Option Int :=
  match s.data with
  | [] => none
  | c :: rest =>
      let signed : Bool × List Char :=
        if c = '-' then (true, rest)
        else if c = '+' then (false, rest)
        else (false, c :: rest)
      match signed with
      | (neg, digits) =>
          if digits.isEmpty then none
          else if digits.all Char.isDigit then
            let n : Nat := digits.foldl (fun acc d => acc * 10 + (d.toNat - 48)) 0
            some (if neg then -(n : Int) else (n : Int))
          else none

mutual
/-- `isZero` (validator.go): nil check for map/slice (and the other
reference kinds through the default interface comparison), recursive
all-components check for arrays and structs, zero-value comparison for
scalars.  The Go original recurses into unexported struct fields too and
would panic on unexported non-composite fields; that panic is outside the
embedded universe's use. -/
def isZero : MVal → Bool
  | .vStr s => s == ""
  | .vInt n => n == 0
  | .vBool b => b == false
  | .vRaw j => j.isNone
  | .vPtr v => v.isNone
  | .vIDObj v => v.isNone
  | .vSlice v => v.isNone
  | .vArray es => isZeroList es
  | .vMapStr v => v.isNone
  | .vMapInt v => v.isNone
  | .vRelManyStr v => v.isNone
  | .vRelManyInt v => v.isNone
  | .vStruct fs => isZeroFields fs

def isZeroList : List MVal → Bool
  | [] => true
  | v :: t => isZero v && isZeroList t

def isZeroFields : List MField → Bool
  | [] => true
  | ⟨_, _, _, _, v⟩ :: t => isZero v && isZeroFields t
end

/-- The working relationship set `v.object.Relationships`
(`map[string]*Relationship`, linearized); an entry with value `none`
models a nil `*Relationship` stored in the map. -/
abbrev Rels := List (String × Option Relationship)

/-- Go `opts != nil && opts.required`. -/
def optsRequired : Option TagOpts → Bool
  | some o => o.required
  | none => false

/-- `decodeKeys` (validator.go): unmarshal raw bytes into
`map[string]json.RawMessage`.  Empty bytes and JSON `null` leave the map
empty; a JSON object fills it (duplicate keys last-wins, as for a Go map);
any other payload is the unmarshal error turned into an ISE. -/
def decodeKeys (j : Option JSON) : Except GoError (List (String × JSON)) :=
  match j with
  | none => .ok []
  | some .null => .ok []
  | some (.obj fs) => .ok (fs.foldl (fun acc kv => upsert acc kv.1 kv.2) [])
  | some _ => .error (ISE "json: cannot unmarshal value into map[string]json.RawMessage")

/-- `decodeSlice` (validator.go): unmarshal raw bytes into
`[]json.RawMessage`; empty bytes and JSON `null` give an empty slice. -/
def decodeSlice (j : Option JSON) : Except GoError (List JSON) :=
  match j with
  | none => .ok []
  | some .null => .ok []
  | some (.arr xs) => .ok xs
  | some _ => .error (ISE "json: cannot unmarshal value into []json.RawMessage")

/-- `validateModelRelationship` (validator.go): the sequential checks on a
relationship value against the active action's tag options. -/
def validateModelRelationship (name : String) (many : Bool)
    (rel : Option Relationship) (opts : Option TagOpts) : Bool × Option GoError :=
  match rel with
  | none =>
      if optsRequired opts then
        (false, some (RelationshipError "Required relationship" (toLowerFirstRune name)))
      else (false, none)
  | some r =>
      if r.data.length == 0 then
        (false, some (RelationshipError "Missing relationship data" (toLowerFirstRune name)))
      else if !many && decide (r.data.length > 1) then
        (false, some (RelationshipError "Multiple objects for to-one relation" (toLowerFirstRune name)))
      else
        match opts with
        | none =>
            (false, some (withPointer (ForbiddenError "Operation not allowed")
              (RelationshipPointer (toLowerFirstRune name))))
        | some _ => (true, none)

/-- `validateModelField` (validator.go): presence/permission validation of a
non-relationship field value for the active action. -/
def validateModelField (path : String) (v : MVal) (opts : Option TagOpts) :
    Bool × Option GoError :=
  if isZero v then
    if optsRequired opts then
      (false, some (InputError "Required attribute" (toLowerFirstRune path)))
    else (false, none)
  else
    match opts with
    | none =>
        (false, some (withPointer (ForbiddenError "Operation not allowed")
          (AttributePointer (toLowerFirstRune path))))
    | some _ => (true, none)

/-- `setModelRelationshipOne` (validator.go): assign `rel.Data[0]` into a
`*IDObject` field; a non-matching field type is an ISE.  `none` models the
Go index panic on an empty list (unreachable from the walker). -/
def setModelRelationshipOne (v : MVal) (rel : Relationship) :
    Option (MVal × Option GoError) :=
  match rel.data with
  | [] => none
  | d :: _ =>
      match v with
      | .vIDObj _ => some (.vIDObj (some d), none)
      | _ => some (v, some (ISE "Invalid field type for to-one relation, must be *IDObject"))

/-- The insertion loop of `setModelRelationshipMany` for an int-keyed map:
each identifier id is parsed with `strconv.Atoi` before insertion, and the
first failure stops the loop with a user-facing relationship error, keeping
the insertions already performed. -/
def setManyIntLoop (name : String) (entries : List (Int × IDObject)) :
    List IDObject → List (Int × IDObject) × Option GoError
  | [] => (entries, none)
  | d :: rest =>
      match goAtoi d.id with
      | none => (entries, some (RelationshipError "Invalid resource ID" (toLowerFirstRune name)))
      | some n => setManyIntLoop name (upsert entries n d) rest

/-- The insertion loop of `setModelRelationshipMany` for a string-keyed map:
each identifier is inserted under its id. -/
def setManyStrLoop (entries : List (String × IDObject)) :
    List IDObject → List (String × IDObject)
  | [] => entries
  | d :: rest => setManyStrLoop (upsert entries d.id d) rest

/-- `setModelRelationshipMany` (validator.go).  The field must be a map
keyed by string or int with `*IDObject` elements; `none` models the Go
panic of `SetMapIndex` on a nil map.  For the int-keyed map the `Atoi`
check precedes the insertion, so a nil map with a non-parsing first id
still reports the relationship error instead of panicking. -/
def setModelRelationshipMany (name : String) (v : MVal) (rel : Relationship) :
    Option (MVal × Option GoError) :=
  match v with
  | .vRelManyStr o =>
      match rel.data with
      | [] => some (v, none)
      | _ =>
          match o with
          | none => none
          | some es => some (.vRelManyStr (some (setManyStrLoop es rel.data)), none)
  | .vRelManyInt o =>
      match o with
      | some es =>
          let r := setManyIntLoop name es rel.data
          some (.vRelManyInt (some r.1), r.2)
      | none =>
          match rel.data with
          | [] => some (v, none)
          | d :: _ =>
              match goAtoi d.id with
              | none => some (v, some (RelationshipError "Invalid resource ID" (toLowerFirstRune name)))
              | some _ => none
  | .vMapStr _ =>
      match rel.data with
      | [] => some (v, none)
      | _ => some (v, some (ISE "Invalid map value type for to-many relation, must be *IDObject"))
  | .vMapInt _ =>
      match rel.data with
      | [] => some (v, none)
      | _ => some (v, some (ISE "Invalid map value type for to-many relation, must be *IDObject"))
  | _ => some (v, some (ISE "Invalid field type for to-many relation, must be map"))

/-- `setModelRelationship` (validator.go): dispatch on the relationship
cardinality. -/
def setModelRelationship (name : String) (many : Bool) (rel : Relationship)
    (v : MVal) : Option (MVal × Option GoError) :=
  if many then setModelRelationshipMany name v rel
  else setModelRelationshipOne v rel

/-- The loop in `validateStruct` that removes the first attribute entry whose
key matches the field's key case-insensitively: returns the removed raw
value (Go's zero `json.RawMessage` = `none` when absent) and the remaining
attributes. -/
def findAttr : List (String × JSON) → String → Option JSON × List (String × JSON)
  | [], _ => (none, [])
  | (k, v) :: t, p =>
      if eqFold k p then (some v, t)
      else
        let r := findAttr t p
        (r.1, (k, v) :: r.2)

/-- The loop in `validateStruct` that removes the first relationship entry
whose name matches the field name case-insensitively: returns the stored
`*Relationship` (nil when absent or stored nil) and the remaining set. -/
def findRel : Rels → String → Option Relationship × Rels
  | [], _ => (none, [])
  | (k, v) :: t, nm =>
      if eqFold k nm then (v, t)
      else
        let r := findRel t nm
        (r.1, (k, v) :: r.2)

/-- `if path != "" { p = path + fieldSep + p }` -/
def joinPath (path name : String) : String :=
  if path = "" then name else path ++ "/" ++ name

/-- Insert an entry into a key-sorted entry list (ties keep insertion
order). -/
def insertEntry (e : String × MVal) : List (String × MVal) → List (String × MVal)
  | [] => [e]
  | x :: t => if e.1 ≤ x.1 then e :: x :: t else x :: insertEntry e t

/-- `sort.Sort` over the map keys (nestedResult's deterministic iteration
order), applied to the entry list. -/
def sortEntries : List (String × MVal) → List (String × MVal)
  | [] => []
  | e :: t => insertEntry e (sortEntries t)

/-- The struct `reflect` sees behind a non-nil `*jsh.IDObject`: two exported
string fields with json tags `type` and `id` and no jsh tag. -/
def idObjFields (o : IDObject) : List MField :=
  [⟨"Type", "type", "", true, .vStr o.type⟩, ⟨"ID", "id", "", true, .vStr o.id⟩]

/-- The model component computed by one walker task: an updated value, an
updated struct field list, the field-loop state (updated fields plus the
attributes left unconsumed), updated slice elements, or updated map
entries. -/
inductive WOut where
  | val (v : MVal)
  | strukt (fs : List MField)
  | loopOut (fs : List MField) (attrs : List (String × JSON))
  | elems (vs : List MVal)
  | entries (es : List (String × MVal))

/-- A walker result: a Go return value (matched paths, errors, the possibly
mutated model component, and the remaining relationship set), or a Go
runtime panic. -/
inductive WRes where
  | ok (fields : List String) (errs : List GoError) (out : WOut) (rels : Rels)
  | crash

/-- The mutually recursive calls of the walker, defunctionalized:
`vstruct` is `validateStruct`, `floop` its per-field loop, `nested` is
`nestedResult`, and `sliceLoop`/`mapLoop` its element loops. -/
inductive WTask where
  | vstruct (path : String) (flds : List MField) (j : Option JSON)
  | floop (path : String) (flds : List MField) (attrs : List (String × JSON))
  | nested (path : String) (fv : MVal) (j : Option JSON)
  | sliceLoop (path : String) (i : Nat) (elems : List MVal) (jArr : List JSON)
  | mapLoop (path : String) (es : List (String × MVal)) (jsonValues : List (String × JSON))

/-- The end of `validateStruct`: append one "Attribute does not exist" error
per unconsumed raw key and one "Relationship does not exist" error per
relationship name still present (without removing it), then return errors
only, or the matched fields when no error occurred. -/
def structFinish (path : String) (res : WRes) : WRes :=
  match res with
  | .crash => .crash
  | .ok fields errs (.loopOut flds' leftover) rels' =>
      let errs2 := errs ++ leftover.map fun kv =>
        InputError "Attribute does not exist" (joinPath path kv.1)
      let errs3 := errs2 ++ rels'.map fun kv =>
        RelationshipError "Relationship does not exist" (joinPath path kv.1)
      if errs3.isEmpty then .ok fields [] (.strukt flds') rels'
      else .ok [] errs3 (.strukt flds') rels'
  | .ok _ _ _ _ => .crash

/-- The recursive core, fuel-indexed: `none` means the fuel ran out (every
actual run below uses ample fuel).  Each equation is the direct transcription
of the corresponding Go code path; comments mark the source lines. -/
def walk (action : String) : Nat → WTask → Rels → Option WRes
  | 0, _, _ => none
  | Nat.succ fuel, t, rels =>
    match t with
    | .vstruct path flds j =>
        -- validateStruct: decode the sibling attributes, run the field
        -- loop, then add the "does not exist" errors.
        match decodeKeys j with
        | .error e => some (.ok [] [e] (.strukt flds) rels)
        | .ok attrs =>
            match walk action fuel (.floop path flds attrs) rels with
            | none => none
            | some r => some (structFinish path r)
    | .floop path flds attrs =>
        match flds with
        | [] => some (.ok [] [] (.loopOut [] attrs) rels)
        | f :: rest =>
            -- One iteration of the field loop; `step` resumes on the rest of
            -- the fields with the per-field outputs accumulated in order.
            let step := fun (fieldsHere : List String) (errsHere : List GoError)
                (f' : MField) (attrs1 : List (String × JSON)) (rels1 : Rels) =>
              match walk action fuel (.floop path rest attrs1) rels1 with
              | none => none
              | some .crash => some WRes.crash
              | some (.ok fr er (.loopOut rest' leftover) rels2) =>
                  some (.ok (fieldsHere ++ fr) (errsHere ++ er)
                    (.loopOut (f' :: rest') leftover) rels2)
              | some (.ok _ _ _ _) => some WRes.crash
            if f.exported = false then step [] [] f attrs rels
            else
              let tags := decodeFieldTags f.jshTag
              let p0 := toLowerFirstRune f.name
              if (lookupKey tags "one").isSome || (lookupKey tags "many").isSome then
                -- Relationship field: consume the matching relationship,
                -- validate it, and on acceptance assign it into the model.
                let fr := findRel rels f.name
                let many := (lookupKey tags "many").isSome
                match validateModelRelationship p0 many fr.1 (lookupKey tags action) with
                | (_, some err) => step [] [err] f attrs fr.2
                | (true, none) =>
                    match fr.1 with
                    | none => some WRes.crash
                    | some r =>
                        match setModelRelationship p0 many r f.value with
                        | none => some WRes.crash
                        | some (v', some err) =>
                            step [] [err] ⟨f.name, f.jsonTag, f.jshTag, f.exported, v'⟩ attrs fr.2
                        | some (v', none) =>
                            step [p0] [] ⟨f.name, f.jsonTag, f.jshTag, f.exported, v'⟩ attrs fr.2
                | (false, none) => step [] [] f attrs fr.2
              else
                -- Attribute field: resolve the external key, consume the
                -- matching raw value, validate, then recurse into the value.
                let p1 := decodeJSONTag f
                if p1 = "-" then step [] [] f attrs rels
                else
                  let fa := findAttr attrs p1
                  let p2 := joinPath path p1
                  match validateModelField p2 f.value (lookupKey tags action) with
                  | (_, some err) => step [] [err] f fa.2 rels
                  | (false, none) => step [] [] f fa.2 rels
                  | (true, none) =>
                      match walk action fuel (.nested p2 f.value fa.1) rels with
                      | none => none
                      | some .crash => some WRes.crash
                      | some (.ok nf ne (.val v') rels2) =>
                          if ne.isEmpty then
                            step nf [] ⟨f.name, f.jsonTag, f.jshTag, f.exported, v'⟩ fa.2 rels2
                          else
                            step [] ne ⟨f.name, f.jsonTag, f.jshTag, f.exported, v'⟩ fa.2 rels2
                      | some (.ok _ _ _ _) => some WRes.crash
    | .nested path fv j =>
        match fv with
        | .vMapStr o =>
            -- Map with string keys: decode, then walk entries in sorted key
            -- order; a nil map has no keys but the decode still happens.
            match decodeKeys j with
            | .error e => some (.ok [] [e] (.val fv) rels)
            | .ok jsonValues =>
                match walk action fuel (.mapLoop path (sortEntries (o.getD [])) jsonValues) rels with
                | none => none
                | some .crash => some WRes.crash
                | some (.ok mf me (.entries es') rels') =>
                    let fv' : MVal := match o with
                      | none => .vMapStr none
                      | some _ => .vMapStr (some es')
                    if me.isEmpty then some (.ok (path :: mf) [] (.val fv') rels')
                    else some (.ok [] me (.val fv') rels')
                | some (.ok _ _ _ _) => some WRes.crash
        | .vRelManyStr o =>
            -- Also a string-keyed map; its `*IDObject` values contain no
            -- jsh-tagged field, so the walk cannot mutate them.
            match decodeKeys j with
            | .error e => some (.ok [] [e] (.val fv) rels)
            | .ok jsonValues =>
                let es := (o.getD []).map fun kv => (kv.1, MVal.vIDObj (some kv.2))
                match walk action fuel (.mapLoop path (sortEntries es) jsonValues) rels with
                | none => none
                | some .crash => some WRes.crash
                | some (.ok mf me (.entries _) rels') =>
                    if me.isEmpty then some (.ok (path :: mf) [] (.val fv) rels')
                    else some (.ok [] me (.val fv) rels')
                | some (.ok _ _ _ _) => some WRes.crash
        | .vMapInt _ => some (.ok [] [ISE "Type is not supported"] (.val fv) rels)
        | .vRelManyInt _ => some (.ok [] [ISE "Type is not supported"] (.val fv) rels)
        | .vRaw _ => some (.ok [path] [] (.val fv) rels)
        | .vSlice o =>
            match decodeSlice j with
            | .error e => some (.ok [] [e] (.val fv) rels)
            | .ok jArr =>
                match walk action fuel (.sliceLoop path 0 (o.getD []) jArr) rels with
                | none => none
                | some .crash => some WRes.crash
                | some (.ok sf se (.elems vs') rels') =>
                    let fv' : MVal := match o with
                      | none => .vSlice none
                      | some _ => .vSlice (some vs')
                    if se.isEmpty then some (.ok (path :: sf) [] (.val fv') rels')
                    else some (.ok [] se (.val fv') rels')
                | some (.ok _ _ _ _) => some WRes.crash
        | .vArray es =>
            match decodeSlice j with
            | .error e => some (.ok [] [e] (.val fv) rels)
            | .ok jArr =>
                match walk action fuel (.sliceLoop path 0 es jArr) rels with
                | none => none
                | some .crash => some WRes.crash
                | some (.ok sf se (.elems vs') rels') =>
                    if se.isEmpty then some (.ok (path :: sf) [] (.val (.vArray vs')) rels')
                    else some (.ok [] se (.val (.vArray vs')) rels')
                | some (.ok _ _ _ _) => some WRes.crash
        | .vPtr none => some (.ok [path] [] (.val fv) rels)
        | .vPtr (some v) =>
            -- Non-nil pointer: recurse on the element at the same path,
            -- returning the recursive result directly.
            match walk action fuel (.nested path v j) rels with
            | none => none
            | some .crash => some WRes.crash
            | some (.ok nf ne (.val v') rels') =>
                some (.ok nf ne (.val (.vPtr (some v'))) rels')
            | some (.ok _ _ _ _) => some WRes.crash
        | .vIDObj none => some (.ok [path] [] (.val fv) rels)
        | .vIDObj (some o) =>
            -- Non-nil *IDObject: its element is a plain struct of two
            -- untagged strings; nothing in it can be mutated.
            match walk action fuel (.vstruct path (idObjFields o) j) rels with
            | none => none
            | some .crash => some WRes.crash
            | some (.ok sf se (.strukt _) rels') =>
                if se.isEmpty then some (.ok (path :: sf) [] (.val fv) rels')
                else some (.ok [] se (.val fv) rels')
            | some (.ok _ _ _ _) => some WRes.crash
        | .vStruct flds =>
            match walk action fuel (.vstruct path flds j) rels with
            | none => none
            | some .crash => some WRes.crash
            | some (.ok sf se (.strukt flds') rels') =>
                if se.isEmpty then some (.ok (path :: sf) [] (.val (.vStruct flds')) rels')
                else some (.ok [] se (.val (.vStruct flds')) rels')
            | some (.ok _ _ _ _) => some WRes.crash
        | .vStr _ => some (.ok [path] [] (.val fv) rels)
        | .vInt _ => some (.ok [path] [] (.val fv) rels)
        | .vBool _ => some (.ok [path] [] (.val fv) rels)
    | .sliceLoop path i elems jArr =>
        match elems with
        | [] => some (.ok [] [] (.elems []) rels)
        | e :: rest =>
            -- `jArray[i]` for `i < fv.Len()`: when the decoded list is
            -- shorter, Go panics with an index-out-of-range error.
            match jArr.get? i with
            | none => some WRes.crash
            | some jv =>
                match walk action fuel (.nested (path ++ "/" ++ toString i) e (some jv)) rels with
                | none => none
                | some .crash => some WRes.crash
                | some (.ok cf ce (.val e') rels') =>
                    if ce.isEmpty then
                      match walk action fuel (.sliceLoop path (i + 1) rest jArr) rels' with
                      | none => none
                      | some .crash => some WRes.crash
                      | some (.ok rf re (.elems rest') rels2) =>
                          if re.isEmpty then some (.ok (cf ++ rf) [] (.elems (e' :: rest')) rels2)
                          else some (.ok [] re (.elems (e' :: rest')) rels2)
                      | some (.ok _ _ _ _) => some WRes.crash
                    else some (.ok [] ce (.elems (e' :: rest)) rels')
                | some (.ok _ _ _ _) => some WRes.crash
    | .mapLoop path es jsonValues =>
        match es with
        | [] => some (.ok [] [] (.entries []) rels)
        | (k, v) :: rest =>
            match walk action fuel (.nested (path ++ "/" ++ k) v (lookupKey jsonValues k)) rels with
            | none => none
            | some .crash => some WRes.crash
            | some (.ok cf ce (.val v') rels') =>
                if ce.isEmpty then
                  match walk action fuel (.mapLoop path rest jsonValues) rels' with
                  | none => none
                  | some .crash => some WRes.crash
                  | some (.ok rf re (.entries rest') rels2) =>
                      if re.isEmpty then some (.ok (cf ++ rf) [] (.entries ((k, v') :: rest')) rels2)
                      else some (.ok [] re (.entries ((k, v') :: rest')) rels2)
                  | some (.ok _ _ _ _) => some WRes.crash
                else some (.ok [] ce (.entries ((k, v') :: rest)) rels')
            | some (.ok _ _ _ _) => some WRes.crash

/-- `Validate` (validator.go): reject a nil or non-pointer model with one
ISE, reject a pointer to a non-struct with one ISE, and otherwise validate
the pointed-to struct at the root path against the object's attributes. -/
def Validate (fuel : Nat) (action : String) (model : MVal)
    (attrsJ : Option JSON) (rels : Rels) : Option WRes :=
  match model with
  | .vPtr none =>
      some (.ok [] [ISE ("The argument to " ++ action ++ " must be a non-nil pointer")]
        (.val model) rels)
  | .vIDObj none =>
      some (.ok [] [ISE ("The argument to " ++ action ++ " must be a non-nil pointer")]
        (.val model) rels)
  | .vPtr (some inner) =>
      match inner with
      | .vStruct flds =>
          match walk action fuel (.vstruct "" flds attrsJ) rels with
          | none => none
          | some .crash => some WRes.crash
          | some (.ok f e (.strukt flds') rels') =>
              some (.ok f e (.val (.vPtr (some (.vStruct flds')))) rels')
          | some (.ok _ _ _ _) => some WRes.crash
      | _ =>
          some (.ok [] [ISE ("The argument to " ++ action ++ " must be a pointer to a struct")]
            (.val model) rels)
  | .vIDObj (some o) =>
      match walk action fuel (.vstruct "" (idObjFields o) attrsJ) rels with
      | none => none
      | some .crash => some WRes.crash
      | some (.ok f e (.strukt _) rels') => some (.ok f e (.val model) rels')
      | some (.ok _ _ _ _) => some WRes.crash
  | _ =>
      some (.ok [] [ISE ("The argument to " ++ action ++ " must be a non-nil pointer")]
        (.val model) rels)

/-- Models that the pointer check of `Validate` rejects: nil pointers and
everything that is not a pointer. -/
def nilOrNonPointer : MVal → Bool
  | .vPtr (some _) => false
  | .vIDObj (some _) => false
  | _ => true

/-- The matched-path list of a walker result, `[]` otherwise. -/
def matchedOf : Option WRes → List String
  | some (.ok f _ _ _) => f
  | _ => []

/-- The error list of a walker result, `[]` otherwise. -/
def errsOf : Option WRes → List GoError
  | some (.ok _ e _ _) => e
  | _ => []

/-- The model value of a walker result. -/
def modelOf : Option WRes → Option MVal
  | some (.ok _ _ (.val v) _) => some v
  | _ => none

/-- The relationship set a walker result leaves behind. -/
def relsOf : Option WRes → Rels
  | some (.ok _ _ _ r) => r
  | _ => []

/-- Count the errors with a given detail message and source pointer. -/
def countErr (errs : List GoError) (detail pointer : String) : Nat :=
  errs.countP fun e => e.detail == detail && e.sourcePointer == some pointer

/-- Count the errors with a given detail message (any pointer). -/
def countErrDetail (errs : List GoError) (detail : String) : Nat :=
  errs.countP fun e => e.detail == detail

/-- Count the entries of an association list holding a given key. -/
def countKey {κ α : Type} [DecidableEq κ] (l : List (κ × α)) (k : κ) : Nat :=
  l.countP fun e => e.1 = k

/-- Every walker task except the accumulating field loop (whose intermediate
results legitimately mix matched paths with errors before `structFinish`
discards the paths). -/
def notFloop : WTask → Bool
  | .floop _ _ _ => false
  | _ => true

/-- Field values on which `nestedResult` neither recurses nor decodes:
scalar leaves, raw messages, and nil pointers. -/
def leafVal : MVal → Bool
  | .vStr _ => true
  | .vInt _ => true
  | .vBool _ => true
  | .vRaw _ => true
  | .vPtr none => true
  | .vIDObj none => true
  | _ => false

/-- Whether a field is tagged as a relationship (`one` or `many`). -/
def relTagged (f : MField) : Bool :=
  (lookupKey (decodeFieldTags f.jshTag) "one").isSome
    || (lookupKey (decodeFieldTags f.jshTag) "many").isSome

/-- A field whose processing can produce neither nested struct levels nor
nested decodes: skipped, a relationship, or a leaf value. -/
def flatField (f : MField) : Bool :=
  !f.exported || relTagged f || decodeJSONTag f == "-" || leafVal f.value

/-- Whether processing this field can consume the raw attribute entry with
key `k` (exported non-relationship field that is not json-ignored and whose
external key folds to `k`). -/
def fieldConsumesAttr (f : MField) (k : String) : Bool :=
  f.exported && !relTagged f && decodeJSONTag f != "-" && eqFold k (decodeJSONTag f)

/-- Whether processing this field can consume the relationship entry named
`nm` (exported relationship-tagged field whose name folds to `nm`). -/
def fieldConsumesRel (f : MField) (nm : String) : Bool :=
  f.exported && relTagged f && eqFold nm f.name

/-- The parsed-prefix insertion of `setManyIntLoop`: identifiers whose id
parses are inserted under the parsed integer key (non-parsing entries do
not reach the insertion). -/
def insertParsed (entries : List (Int × IDObject)) (ds : List IDObject) :
    List (Int × IDObject) :=
  ds.foldl
    (fun m d =>
      match goAtoi d.id with
      | some n => upsert m n d
      | none => m)
    entries

/-- In-place first-occurrence update of an association list (the effect of a
Go map assignment when the key is already present). -/
def updFirst {κ α : Type} [DecidableEq κ] : List (κ × α) → κ → α → List (κ × α)
  | [], _, _ => []
  | (k', v') :: t, k, v =>
      if k' = k then (k, v) :: t else (k', v') :: updFirst t k v

/-- Simultaneously rewrite the value at the first occurrence of every key in
the domain of `σ` (keys in `seen` are treated as already passed). -/
def mapFirst {κ α : Type} [DecidableEq κ] (σ : κ → Option α) :
    List (κ × α) → List κ → List (κ × α)
  | [], _ => []
  | (k, x) :: t, seen =>
      if k ∈ seen then (k, x) :: mapFirst σ t seen
      else (k, (σ k).getD x) :: mapFirst σ t (k :: seen)

/-- The value the last occurrence of a key in an update sequence carries. -/
def lastVal {κ α : Type} [DecidableEq κ] : List (κ × α) → κ → Option α
  | [], _ => none
  | (k', v) :: t, k =>
      match lastVal t k with
      | some w => some w
      | none => if k' = k then some v else none

/-- The spec's worked example (claim C3): the inner struct
`{Foo, Bar: string}`, fully create-tagged. -/
def c3Inner : List MField :=
  [⟨"Foo", "foo", "create", true, .vStr "bar"⟩,
   ⟨"Bar", "bar", "create", true, .vStr "foo"⟩]

/-- The spec's worked example: the outer model `{Foo: list<inner>}`,
populated by unmarshaling the raw input. -/
def c3Outer : List MField :=
  [⟨"Foo", "foo", "create", true, .vSlice (some [.vStruct c3Inner])⟩]

/-- The raw input of the worked example. -/
def c3Attrs : Option JSON :=
  some (.obj [("foo", .arr [.obj [("foo", .str "bar"), ("bar", .str "foo")]])])

/-- A model with one nested create-tagged struct field (used to exhibit the
per-level repetition of unknown-relationship errors). -/
def c7Outer : List MField :=
  [⟨"In", "in", "create", true, .vStruct [⟨"A", "a", "create", true, .vStr "x"⟩]⟩]

/-- Raw attributes matching `c7Outer`. -/
def c7Attrs : Option JSON := some (.obj [("in", .obj [("a", .str "x")])])

/-- A relationship set holding one name no model field declares. -/
def c7Rels : Rels := [("bogus", some ⟨[⟨"t", "1"⟩]⟩)]

/-- A model with a single to-one relationship field tagged for create. -/
def c8Flds : List MField :=
  [⟨"Group", "-", "one,create", true, .vIDObj none⟩]

/-- The same model after the first validation bound the relationship. -/
def c8FldsSet : List MField :=
  [⟨"Group", "-", "one,create", true, .vIDObj (some ⟨"group", "1"⟩)⟩]

/-- The relationship set providing that to-one relationship. -/
def c8Rels : Rels := [("group", some ⟨[⟨"group", "1"⟩]⟩)]

/-- A model whose slice field is longer than the decoded raw list (the raw
attributes do not contain the key at all). -/
def c9Flds : List MField :=
  [⟨"Foo", "foo", "create", true, .vSlice (some [.vStr "x"])⟩]

end Jsh

open Jsh

/-- Claim C3: validating the raw input
`{"foo":[{"foo":"bar","bar":"foo"}]}` for create against the fully
create-tagged model `{Foo: list<{Foo, Bar: string}>}` populated from that
input returns no errors, and the matched paths are exactly
`["foo", "foo/0", "foo/0/foo", "foo/0/bar"]` in that order. -/
theorem C3_worked_example_paths :
    Validate 20 "create" (.vPtr (some (.vStruct c3Outer))) c3Attrs []
      = some (.ok ["foo", "foo/0", "foo/0/foo", "foo/0/bar"] []
          (.val (.vPtr (some (.vStruct c3Outer)))) []) := rfl

/-- Claim C9 (code bug): when the decoded raw list is shorter than the model
slice — here the raw attribute is missing entirely, so the decoded list is
empty while the model slice has length 1 — `nestedResult` reads
`jArray[0]` out of bounds and the Go code panics instead of returning an
error. -/
theorem C9_out_of_bounds_read_panics :
    Validate 20 "create" (.vPtr (some (.vStruct c9Flds))) (some (.obj [])) []
      = some WRes.crash := rfl

/-- Claim C6 (code bug): for every exported non-relationship field carrying
no json tag, `decodeJSONTag` returns the empty string — not the field name,
as both the claim and the function's own doc comment state — because
`strings.SplitN("", ",", -1)` yields `[""]`, never an empty slice. -/
theorem C6_untagged_field_external_key :
    (∀ (name jsh : String) (ex : Bool) (v : MVal),
        decodeJSONTag ⟨name, "", jsh, ex, v⟩ = "")
      ∧ (("" : String) == "Foo") = false :=
  ⟨fun _ _ _ _ => rfl, rfl⟩

/-- Claim C4: a nil pointer or a non-pointer model makes `Validate` return
no matched paths together with exactly one error of the Internal kind
(status 500 with the default internal-error title). -/
theorem C4_invalid_model_single_internal_error (fuel : Nat) (action : String)
    (attrsJ : Option JSON) (rels : Rels) (model : MVal)
    (h : nilOrNonPointer model = true) :
    ∃ e, Validate fuel action model attrsJ rels = some (.ok [] [e] (.val model) rels)
      ∧ e.status = 500 ∧ e.title = DefaultErrorTitle := by
  cases model with
  | vPtr v =>
      cases v with
      | none => exact ⟨_, rfl, rfl, rfl⟩
      | some inner => simp [nilOrNonPointer] at h
  | vIDObj v =>
      cases v with
      | none => exact ⟨_, rfl, rfl, rfl⟩
      | some o => simp [nilOrNonPointer] at h
  | vStr s => exact ⟨_, rfl, rfl, rfl⟩
  | vInt n => exact ⟨_, rfl, rfl, rfl⟩
  | vBool b => exact ⟨_, rfl, rfl, rfl⟩
  | vRaw j => exact ⟨_, rfl, rfl, rfl⟩
  | vSlice v => exact ⟨_, rfl, rfl, rfl⟩
  | vArray es => exact ⟨_, rfl, rfl, rfl⟩
  | vMapStr v => exact ⟨_, rfl, rfl, rfl⟩
  | vMapInt v => exact ⟨_, rfl, rfl, rfl⟩
  | vRelManyStr v => exact ⟨_, rfl, rfl, rfl⟩
  | vRelManyInt v => exact ⟨_, rfl, rfl, rfl⟩
  | vStruct fs => exact ⟨_, rfl, rfl, rfl⟩

/-- Witness for C4 at a concrete non-pointer model. -/
theorem C4_invalid_model_witness :
    nilOrNonPointer (.vStr "x") = true
      ∧ ∃ e, Validate 5 "create" (.vStr "x") none [] = some (.ok [] [e] (.val (.vStr "x")) [])
          ∧ e.status = 500 ∧ e.title = DefaultErrorTitle :=
  ⟨rfl, C4_invalid_model_single_internal_error 5 "create" none [] (.vStr "x") rfl⟩

/-- Claim C2: the case analysis of `validateModelRelationship`, read as the
sequential guards of the spec: absent and required gives the
required-relationship error; absent and not required gives no match and no
error; an empty identifier list gives the missing-data error; a to-one
linkage with more than one identifier gives the multiple-objects error; a
present non-empty (and cardinality-consistent) linkage with no tag for the
active action gives a forbidden error pointing at the relationship; and
every remaining case is accepted with no error. -/
theorem C2_relationship_binder_cases (name : String) (many : Bool)
    (rel : Option Relationship) (opts : Option TagOpts) :
    (rel = none → optsRequired opts = true →
        validateModelRelationship name many rel opts
          = (false, some (RelationshipError "Required relationship" (toLowerFirstRune name))))
    ∧ (rel = none → optsRequired opts = false →
        validateModelRelationship name many rel opts = (false, none))
    ∧ (∀ r, rel = some r → r.data = [] →
        validateModelRelationship name many rel opts
          = (false, some (RelationshipError "Missing relationship data" (toLowerFirstRune name))))
    ∧ (∀ r, rel = some r → many = false → 1 < r.data.length →
        validateModelRelationship name many rel opts
          = (false, some (RelationshipError "Multiple objects for to-one relation" (toLowerFirstRune name))))
    ∧ (∀ r, rel = some r → r.data ≠ [] → (many = true ∨ r.data.length = 1) → opts = none →
        validateModelRelationship name many rel opts
          = (false, some (withPointer (ForbiddenError "Operation not allowed")
              (RelationshipPointer (toLowerFirstRune name)))))
    ∧ (∀ r o, rel = some r → r.data ≠ [] → (many = true ∨ r.data.length = 1) → opts = some o →
        validateModelRelationship name many rel opts = (true, none)) := by
  refine ⟨?_, ?_, ?_, ?_, ?_, ?_⟩
  · intro h hr; subst h; simp [validateModelRelationship, hr]
  · intro h hr; subst h; simp [validateModelRelationship, hr]
  · intro r h hd; subst h; simp [validateModelRelationship, hd]
  · intro r h hm hl; subst h hm
    have h0 : (r.data.length == 0) = false := by
      simp only [beq_eq_false_iff_ne]; omega
    have h1 : decide (r.data.length > 1) = true := by
      simp only [decide_eq_true_eq]; omega
    simp [validateModelRelationship, h0, h1]
  · intro r h hne hcard ho; subst h ho
    have h0 : (r.data.length == 0) = false := by
      simp only [beq_eq_false_iff_ne]
      intro hc; exact hne (List.length_eq_zero.mp hc)
    have h1 : (!many && decide (r.data.length > 1)) = false := by
      rcases hcard with hm | hl
      · simp [hm]
      · simp [hl]
    simp [validateModelRelationship, h0, h1]
  · intro r o h hne hcard ho; subst h ho
    have h0 : (r.data.length == 0) = false := by
      simp only [beq_eq_false_iff_ne]
      intro hc; exact hne (List.length_eq_zero.mp hc)
    have h1 : (!many && decide (r.data.length > 1)) = false := by
      rcases hcard with hm | hl
      · simp [hm]
      · simp [hl]
    simp [validateModelRelationship, h0, h1]

/-- Witness for C2: the required-relationship case at a concrete input. -/
theorem C2_relationship_binder_witness :
    (none : Option Relationship) = none
      ∧ optsRequired (some ⟨true⟩) = true
      ∧ validateModelRelationship "Group" false none (some ⟨true⟩)
          = (false, some (RelationshipError "Required relationship" "group")) := by
  refine ⟨rfl, rfl, ?_⟩
  exact (C2_relationship_binder_cases "Group" false none (some ⟨true⟩)).1 rfl rfl

/-- Inside `setManyIntLoop`, an identifier list containing a non-parsing id
always ends in the invalid-resource-ID relationship error (at the first
failing identifier). -/
lemma setManyIntLoop_first_failure (name : String) :
    ∀ (ds : List IDObject) (entries : List (Int × IDObject)),
      (∃ d ∈ ds, goAtoi d.id = none) →
      ∃ es', setManyIntLoop name entries ds
        = (es', some (RelationshipError "Invalid resource ID" (toLowerFirstRune name))) := by
  intro ds
  induction ds with
  | nil => intro entries h; simp at h
  | cons d rest ih =>
      intro entries h
      by_cases hd : goAtoi d.id = none
      · exact ⟨entries, by simp [setManyIntLoop, hd]⟩
      · obtain ⟨n, hn⟩ := Option.ne_none_iff_exists'.mp hd
        have hrest : ∃ x ∈ rest, goAtoi x.id = none := by
          obtain ⟨x, hx, hfx⟩ := h
          cases hx with
          | head => exact absurd hfx hd
          | tail _ hx => exact ⟨x, hx, hfx⟩
        obtain ⟨es', he⟩ := ih (upsert entries n d) hrest
        exact ⟨es', by simp [setManyIntLoop, hn, he]⟩

/-- Claim C5: binding a to-many linkage into an integer-keyed map when some
identifier's id does not parse as an integer produces the user-facing
"Invalid resource ID" relationship error — status 422 with a source pointer
at the relationship's path, not an Internal (500) error. -/
theorem C5_non_numeric_id_user_error (name : String) (es : List (Int × IDObject))
    (rel : Relationship) (h : ∃ d ∈ rel.data, goAtoi d.id = none) :
    ∃ es', setModelRelationshipMany name (.vRelManyInt (some es)) rel
        = some (.vRelManyInt (some es'),
            some (RelationshipError "Invalid resource ID" (toLowerFirstRune name)))
      ∧ (RelationshipError "Invalid resource ID" (toLowerFirstRune name)).status = 422
      ∧ (RelationshipError "Invalid resource ID" (toLowerFirstRune name)).sourcePointer
          = some (RelationshipPointer (toLowerFirstRune name))
      ∧ ((RelationshipError "Invalid resource ID" (toLowerFirstRune name)).status == 500)
          = false := by
  obtain ⟨es', he⟩ := setManyIntLoop_first_failure name rel.data es h
  exact ⟨es', by simp [setModelRelationshipMany, he], rfl, rfl, rfl⟩

/-- Witness for C5 at a concrete non-numeric identifier. -/
theorem C5_non_numeric_id_witness :
    (∃ d ∈ ([⟨"tag", "x"⟩] : List IDObject), goAtoi d.id = none)
      ∧ ∃ es', setModelRelationshipMany "Tags" (.vRelManyInt (some []))
            (⟨[⟨"tag", "x"⟩]⟩ : Relationship)
          = some (.vRelManyInt (some es'),
              some (RelationshipError "Invalid resource ID" "tags"))
        ∧ (RelationshipError "Invalid resource ID" "tags").status = 422 := by
  have hx : ∃ d ∈ ([⟨"tag", "x"⟩] : List IDObject), goAtoi d.id = none :=
    ⟨⟨"tag", "x"⟩, List.mem_singleton.mpr rfl, rfl⟩
  obtain ⟨es', he, hs, _, _⟩ :=
    C5_non_numeric_id_user_error "Tags" [] (⟨[⟨"tag", "x"⟩]⟩ : Relationship) hx
  exact ⟨hx, es', he, hs⟩

/-- `setManyIntLoop` inserts a fully-parsing prefix before looking at the
rest of the identifier list. -/
lemma setManyIntLoop_parsed_prefix (name : String) :
    ∀ (pre : List IDObject) (entries : List (Int × IDObject)) (tail : List IDObject),
      (∀ d ∈ pre, goAtoi d.id ≠ none) →
      setManyIntLoop name entries (pre ++ tail)
        = setManyIntLoop name (insertParsed entries pre) tail := by
  intro pre
  induction pre with
  | nil => intro entries tail _; simp [insertParsed]
  | cons d rest ih =>
      intro entries tail hpre
      obtain ⟨n, hn⟩ := Option.ne_none_iff_exists'.mp (hpre d (List.mem_cons_self d rest))
      have : insertParsed entries (d :: rest) = insertParsed (upsert entries n d) rest := by
        simp [insertParsed, hn]
      rw [List.cons_append]
      simp only [setManyIntLoop, hn, this]
      exact ih (upsert entries n d) tail fun x hx => hpre x (List.mem_cons_of_mem d hx)

/-- Claim C10: when the k-th identifier of a to-many linkage fails integer
parsing, every earlier identifier has already been inserted into the model's
map when the error is returned — the assignment is not atomic, and the model
keeps the partial insertions alongside the reported error. -/
theorem C10_partial_insertion_before_error (name : String)
    (es : List (Int × IDObject)) (pre : List IDObject) (bad : IDObject)
    (rest : List IDObject) (hpre : ∀ d ∈ pre, goAtoi d.id ≠ none)
    (hbad : goAtoi bad.id = none) :
    setModelRelationshipMany name (.vRelManyInt (some es)) ⟨pre ++ bad :: rest⟩
      = some (.vRelManyInt (some (insertParsed es pre)),
          some (RelationshipError "Invalid resource ID" (toLowerFirstRune name))) := by
  have hstep := setManyIntLoop_parsed_prefix name pre es (bad :: rest) hpre
  simp [setModelRelationshipMany, hstep, setManyIntLoop, hbad]

/-- Witness for C10: with one parsing identifier before the failing one, the
error is reported while the map observably contains the first identifier. -/
theorem C10_partial_insertion_witness :
    (∀ d ∈ ([⟨"t", "1"⟩] : List IDObject), goAtoi d.id ≠ none)
      ∧ goAtoi (IDObject.mk "t" "x").id = none
      ∧ setModelRelationshipMany "Tags" (.vRelManyInt (some []))
            (⟨[⟨"t", "1"⟩, ⟨"t", "x"⟩]⟩ : Relationship)
          = some (.vRelManyInt (some (insertParsed [] [⟨"t", "1"⟩])),
              some (RelationshipError "Invalid resource ID" "tags"))
      ∧ countKey (insertParsed [] [⟨"t", "1"⟩]) (1 : Int) = 1 := by
  have h1 : ∀ d ∈ ([⟨"t", "1"⟩] : List IDObject), goAtoi d.id ≠ none := by
    intro d hd
    rw [List.mem_singleton.mp hd]
    intro hc
    simp [goAtoi] at hc
  refine ⟨h1, rfl, ?_, by decide⟩
  exact C10_partial_insertion_before_error "Tags" [] [⟨"t", "1"⟩] ⟨"t", "x"⟩ [] h1 rfl

/-- `structFinish` never returns matched paths together with errors. -/
lemma structFinish_no_mix (path : String) (res : WRes) (f : List String)
    (e : List GoError) (o : WOut) (r : Rels) :
    structFinish path res = .ok f e o r → e ≠ [] → f = [] := by
  intro h he
  unfold structFinish at h
  split at h
  · exact absurd h.symm (by simp)
  · dsimp only at h
    split at h
    · cases h
      exact absurd rfl he
    · cases h
      rfl
  · exact absurd h.symm (by simp)


/-- Everywhere outside the accumulating field loop, a walker result never
carries matched paths alongside a non-empty error list. -/
lemma walk_no_mix (action : String) :
    ∀ (fuel : Nat) (task : WTask) (rels : Rels) (f : List String) (e : List GoError)
      (o : WOut) (r : Rels), notFloop task = true →
      walk action fuel task rels = some (.ok f e o r) → e ≠ [] → f = [] := by
  intro fuel
  induction fuel with
  | zero =>
      intro task rels f e o r _ h
      simp [walk] at h
  | succ n ih =>
      intro task rels f e o r hnf h he
      cases task with
      | floop path flds attrs => simp [notFloop] at hnf
      | vstruct path flds j =>
          simp only [walk] at h
          split at h
          · cases h; rfl
          · split at h
            · simp at h
            · injection h with h'
              exact structFinish_no_mix path _ f e o r h' he
      | nested path fv j =>
          cases fv with
          | vMapStr o =>
              simp only [walk] at h
              split at h
              · cases h; rfl
              · split at h
                · simp at h
                · simp at h
                · split at h
                  · cases h; exact absurd rfl he
                  · cases h; rfl
                · simp at h
          | vRelManyStr o =>
              simp only [walk] at h
              split at h
              · cases h; rfl
              · split at h
                · simp at h
                · simp at h
                · split at h
                  · cases h; exact absurd rfl he
                  · cases h; rfl
                · simp at h
          | vMapInt o =>
              simp only [walk] at h
              cases h; rfl
          | vRelManyInt o =>
              simp only [walk] at h
              cases h; rfl
          | vRaw j0 =>
              simp only [walk] at h
              cases h; exact absurd rfl he
          | vSlice o =>
              simp only [walk] at h
              split at h
              · cases h; rfl
              · split at h
                · simp at h
                · simp at h
                · split at h
                  · cases h; exact absurd rfl he
                  · cases h; rfl
                · simp at h
          | vArray es =>
              simp only [walk] at h
              split at h
              · cases h; rfl
              · split at h
                · simp at h
                · simp at h
                · split at h
                  · cases h; exact absurd rfl he
                  · cases h; rfl
                · simp at h
          | vPtr v =>
              cases v with
              | none =>
                  simp only [walk] at h
                  cases h; exact absurd rfl he
              | some w =>
                  simp only [walk] at h
                  split at h
                  · simp at h
                  · simp at h
                  · cases h
                    exact ih (.nested path w j) rels _ _ _ _ rfl (by assumption) he
                  · simp at h
          | vIDObj v =>
              cases v with
              | none =>
                  simp only [walk] at h
                  cases h; exact absurd rfl he
              | some ob =>
                  simp only [walk] at h
                  split at h
                  · simp at h
                  · simp at h
                  · split at h
                    · cases h; exact absurd rfl he
                    · cases h; rfl
                  · simp at h
          | vStruct flds =>
              simp only [walk] at h
              split at h
              · simp at h
              · simp at h
              · split at h
                · cases h; exact absurd rfl he
                · cases h; rfl
              · simp at h
          | vStr s =>
              simp only [walk] at h
              cases h; exact absurd rfl he
          | vInt m =>
              simp only [walk] at h
              cases h; exact absurd rfl he
          | vBool b =>
              simp only [walk] at h
              cases h; exact absurd rfl he
      | sliceLoop path i elems jArr =>
          cases elems with
          | nil =>
              simp only [walk] at h
              cases h; exact absurd rfl he
          | cons x rest =>
              simp only [walk] at h
              split at h
              · simp at h
              · split at h
                · simp at h
                · simp at h
                · split at h
                  · split at h
                    · simp at h
                    · simp at h
                    · split at h
                      · cases h; exact absurd rfl he
                      · cases h; rfl
                    · simp at h
                  · cases h; rfl
                · simp at h
      | mapLoop path es jsonValues =>
          cases es with
          | nil =>
              simp only [walk] at h
              cases h; exact absurd rfl he
          | cons x rest =>
              simp only [walk] at h
              split at h
              · simp at h
              · simp at h
              · split at h
                · split at h
                  · simp at h
                  · simp at h
                  · split at h
                    · cases h; exact absurd rfl he
                    · cases h; rfl
                  · simp at h
                · cases h; rfl
              · simp at h

/-- Claim C1: a `Validate` call never returns a non-empty matched-path list
together with a non-empty error list — whenever any error was produced at
any struct level or below, the matched paths are discarded and only the
errors are returned. -/
theorem C1_errors_supersede_paths (fuel : Nat) (action : String) (model : MVal)
    (attrsJ : Option JSON) (rels : Rels) (f : List String) (e : List GoError)
    (o : WOut) (r : Rels)
    (h : Validate fuel action model attrsJ rels = some (.ok f e o r))
    (he : e ≠ []) : f = [] := by
  cases model with
  | vPtr v =>
      cases v with
      | none => cases h; rfl
      | some inner =>
          cases inner with
          | vStruct flds =>
              simp only [Validate] at h
              split at h
              · simp at h
              · simp at h
              · cases h
                exact walk_no_mix action fuel (.vstruct "" flds attrsJ) rels _ _ _ _ rfl
                  (by assumption) he
              · simp at h
          | vStr s => cases h; rfl
          | vInt m => cases h; rfl
          | vBool b => cases h; rfl
          | vRaw j0 => cases h; rfl
          | vPtr v0 => cases h; rfl
          | vIDObj v0 => cases h; rfl
          | vSlice v0 => cases h; rfl
          | vArray es => cases h; rfl
          | vMapStr v0 => cases h; rfl
          | vMapInt v0 => cases h; rfl
          | vRelManyStr v0 => cases h; rfl
          | vRelManyInt v0 => cases h; rfl
  | vIDObj v =>
      cases v with
      | none => cases h; rfl
      | some ob =>
          simp only [Validate] at h
          split at h
          · simp at h
          · simp at h
          · cases h
            exact walk_no_mix action fuel (.vstruct "" (idObjFields ob) attrsJ) rels _ _ _ _ rfl
              (by assumption) he
          · simp at h
  | vStr s => cases h; rfl
  | vInt m => cases h; rfl
  | vBool b => cases h; rfl
  | vRaw j0 => cases h; rfl
  | vSlice v0 => cases h; rfl
  | vArray es => cases h; rfl
  | vMapStr v0 => cases h; rfl
  | vMapInt v0 => cases h; rfl
  | vRelManyStr v0 => cases h; rfl
  | vRelManyInt v0 => cases h; rfl
  | vStruct fs => cases h; rfl

/-- Witness for C1 at a concrete erroring call (the unknown-relationship
input): the error list is non-empty and the matched paths are empty. -/
theorem C1_errors_supersede_paths_witness :
    ([RelationshipError "Relationship does not exist" "in/bogus",
      RelationshipError "Relationship does not exist" "bogus"] : List GoError) ≠ []
      ∧ ([] : List String) = [] :=
  ⟨by simp,
   C1_errors_supersede_paths 20 "create" (.vPtr (some (.vStruct c7Outer))) c7Attrs c7Rels
     [] [RelationshipError "Relationship does not exist" "in/bogus",
         RelationshipError "Relationship does not exist" "bogus"]
     (.val (.vPtr (some (.vStruct c7Outer)))) c7Rels rfl (by simp)⟩

/-- Counterexample to claim C7 as stated: one supplied relationship name
with no matching declared field yields two "Relationship does not exist"
errors in a single Validate call (one per completed struct level, here the
nested level at path `in/bogus` and the root level at `bogus`), not exactly
one. -/
theorem C7_counterexample_two_unknown_relationship_errors :
    countErrDetail (errsOf (Validate 20 "create" (.vPtr (some (.vStruct c7Outer)))
        c7Attrs c7Rels)) "Relationship does not exist" = 2
      ∧ c7Rels.map Prod.fst = ["bogus"] := ⟨rfl, rfl⟩

lemma lookupKey_eq_none_iff {κ α : Type} [DecidableEq κ] (m : List (κ × α)) (k : κ) :
    lookupKey m k = none ↔ k ∉ m.map Prod.fst := by
  induction m with
  | nil => simp [lookupKey]
  | cons x t ih =>
      obtain ⟨k', v⟩ := x
      by_cases hk : k' = k
      · subst hk; simp [lookupKey]
      · simp only [lookupKey, if_neg hk, List.map_cons, List.mem_cons]
        constructor
        · intro h hor
          rcases hor with h1 | h2
          · exact hk h1.symm
          · exact (ih.mp h) h2
        · intro h
          exact ih.mpr fun h2 => h (Or.inr h2)

lemma upsert_keys {κ α : Type} [DecidableEq κ] (m : List (κ × α)) (k : κ) (v : α) :
    (upsert m k v).map Prod.fst
      = if k ∈ m.map Prod.fst then m.map Prod.fst else m.map Prod.fst ++ [k] := by
  induction m with
  | nil => simp [upsert]
  | cons x t ih =>
      obtain ⟨k', v'⟩ := x
      by_cases hk : k' = k
      · subst hk; simp [upsert]
      · have hkk : (k = k') = False := eq_false fun h => hk h.symm
        simp only [upsert, if_neg hk, List.map_cons, ih, List.mem_cons, hkk, false_or]
        by_cases hmem : k ∈ t.map Prod.fst
        · simp [hmem]
        · simp [hmem]

lemma upsert_nodup {κ α : Type} [DecidableEq κ] (m : List (κ × α)) (k : κ) (v : α)
    (h : (m.map Prod.fst).Nodup) : ((upsert m k v).map Prod.fst).Nodup := by
  rw [upsert_keys]
  by_cases hmem : k ∈ m.map Prod.fst
  · simpa [hmem] using h
  · simp only [hmem, if_false]
    exact List.Nodup.append h (List.nodup_singleton k) (by simpa using hmem)

lemma decodeKeys_nodup (j : Option JSON) (A : List (String × JSON))
    (h : decodeKeys j = .ok A) : (A.map Prod.fst).Nodup := by
  cases j with
  | none => cases h; simp
  | some jv =>
      cases jv with
      | null => cases h; simp
      | obj fs =>
          simp only [decodeKeys] at h
          cases h
          have aux : ∀ (fs : List (String × JSON)) (acc : List (String × JSON)),
              (acc.map Prod.fst).Nodup →
              ((fs.foldl (fun acc kv => upsert acc kv.1 kv.2) acc).map Prod.fst).Nodup := by
            intro fs
            induction fs with
            | nil => intro acc hacc; simpa using hacc
            | cons x t ih =>
                intro acc hacc
                exact ih (upsert acc x.1 x.2) (upsert_nodup acc x.1 x.2 hacc)
          exact aux fs [] (by simp)
      | str s => simp [decodeKeys] at h
      | num n => simp [decodeKeys] at h
      | bool b => simp [decodeKeys] at h
      | arr es => simp [decodeKeys] at h

lemma countKey_eq_zero_of_not_mem {κ α : Type} [DecidableEq κ]
    (l : List (κ × α)) (k : κ) (h : k ∉ l.map Prod.fst) : countKey l k = 0 := by
  apply List.countP_eq_zero.mpr
  intro x hx
  simp only [decide_eq_true_eq]
  intro hc
  exact h (by simpa [hc] using List.mem_map_of_mem Prod.fst hx)

lemma countKey_of_mem_nodup {κ α : Type} [DecidableEq κ]
    (l : List (κ × α)) (k : κ) (hnd : (l.map Prod.fst).Nodup)
    (hmem : lookupKey l k ≠ none) : countKey l k = 1 := by
  induction l with
  | nil => simp [lookupKey] at hmem
  | cons x t ih =>
      obtain ⟨k', v⟩ := x
      simp only [List.map_cons, List.nodup_cons] at hnd
      by_cases hk : k' = k
      · subst hk
        have h0 : countKey t k' = 0 := countKey_eq_zero_of_not_mem t k' hnd.1
        rw [countKey, List.countP_cons]
        have hd : (decide ((k', v).1 = k')) = true := by simp
        rw [hd]
        rw [countKey] at h0
        simp [h0]
      · simp only [lookupKey, if_neg hk] at hmem
        have hrec := ih hnd.2 hmem
        rw [countKey, List.countP_cons]
        have hd : (decide ((k', v).1 = k)) = false := by simp [hk]
        rw [hd]
        rw [countKey] at hrec
        simp [hrec]

lemma findAttr_countKey (attrs : List (String × JSON)) (p k : String)
    (h : eqFold k p = false) :
    countKey (findAttr attrs p).2 k = countKey attrs k := by
  induction attrs with
  | nil => rfl
  | cons x t ih =>
      obtain ⟨k0, v0⟩ := x
      by_cases hf : eqFold k0 p
      · have hne : (decide (((k0, v0)).1 = k)) = false := by
          simp only [decide_eq_false_iff_not]
          intro hc
          rw [show k0 = k from hc] at hf
          rw [hf] at h
          exact Bool.noConfusion h
        simp only [findAttr, hf, if_true]
        rw [countKey, countKey, List.countP_cons, hne]
        simp
      · simp only [findAttr, hf, Bool.false_eq_true, if_false]
        rw [countKey, countKey, List.countP_cons, List.countP_cons]
        rw [countKey, countKey] at ih
        omega

lemma findRel_countKey (rels : Rels) (n nm : String)
    (h : eqFold nm n = false) :
    countKey (findRel rels n).2 nm = countKey rels nm := by
  induction rels with
  | nil => rfl
  | cons x t ih =>
      obtain ⟨k0, v0⟩ := x
      by_cases hf : eqFold k0 n
      · have hne : (decide (((k0, v0)).1 = nm)) = false := by
          simp only [decide_eq_false_iff_not]
          intro hc
          rw [show k0 = nm from hc] at hf
          rw [hf] at h
          exact Bool.noConfusion h
        simp only [findRel, hf, if_true]
        rw [countKey, countKey, List.countP_cons, hne]
        simp
      · simp only [findRel, hf, Bool.false_eq_true, if_false]
        rw [countKey, countKey, List.countP_cons, List.countP_cons]
        rw [countKey, countKey] at ih
        omega

/-- The details an error from `validateModelRelationship` can carry. -/
lemma validateModelRelationship_err_detail (name : String) (many : Bool)
    (rel : Option Relationship) (opts : Option TagOpts) (b : Bool) (err : GoError)
    (h : validateModelRelationship name many rel opts = (b, some err)) :
    err.detail = "Required relationship" ∨ err.detail = "Missing relationship data"
      ∨ err.detail = "Multiple objects for to-one relation" ∨ err.detail = "" := by
  unfold validateModelRelationship at h
  split at h
  · split at h
    · cases h; left; rfl
    · simp at h
  · split at h
    · cases h; right; left; rfl
    · split at h
      · cases h; right; right; left; rfl
      · split at h
        · cases h; right; right; right; rfl
        · simp at h

/-- The details an error from `setManyIntLoop` can carry. -/
lemma setManyIntLoop_err_detail (name : String) :
    ∀ (ds : List IDObject) (entries : List (Int × IDObject)) (es' : List (Int × IDObject))
      (err : GoError), setManyIntLoop name entries ds = (es', some err) →
      err.detail = "Invalid resource ID" := by
  intro ds
  induction ds with
  | nil => intro entries es' err h; simp [setManyIntLoop] at h
  | cons d rest ih =>
      intro entries es' err h
      simp only [setManyIntLoop] at h
      split at h
      · cases h; rfl
      · exact ih _ _ _ h

/-- The details an error from `setModelRelationship` can carry. -/
lemma setModelRelationship_err_detail (name : String) (many : Bool)
    (r : Relationship) (v v' : MVal) (err : GoError)
    (h : setModelRelationship name many r v = some (v', some err)) :
    err.detail = DefaultErrorDetail ∨ err.detail = "Invalid resource ID" := by
  unfold setModelRelationship at h
  split at h
  · unfold setModelRelationshipMany at h
    split at h
    · split at h
      · simp at h
      · split at h
        · simp at h
        · simp at h
    · split at h
      · rename_i es
        simp only [Option.some.injEq, Prod.mk.injEq] at h
        obtain ⟨h1, h2⟩ := h
        right
        exact setManyIntLoop_err_detail name r.data es
          (setManyIntLoop name es r.data).1 err (by rw [← h2])
      · split at h
        · simp at h
        · split at h
          · cases h; right; rfl
          · simp at h
    · split at h
      · simp at h
      · cases h; left; rfl
    · split at h
      · simp at h
      · cases h; left; rfl
    · cases h; left; rfl
  · unfold setModelRelationshipOne at h
    split at h
    · simp at h
    · split at h
      · simp at h
      · cases h; left; rfl

/-- The details an error from `validateModelField` can carry. -/
lemma validateModelField_err_detail (path : String) (v : MVal)
    (opts : Option TagOpts) (b : Bool) (err : GoError)
    (h : validateModelField path v opts = (b, some err)) :
    err.detail = "Required attribute" ∨ err.detail = "" := by
  unfold validateModelField at h
  split at h
  · split at h
    · cases h; left; rfl
    · simp at h
  · split at h
    · cases h; right; rfl
    · simp at h

/-- `nestedResult` on a leaf value returns just the field's path, no errors,
the value unchanged, and the relationship set untouched. -/
lemma walk_nested_leaf (action : String) (fuel : Nat) (path : String) (v : MVal)
    (j : Option JSON) (rels : Rels) (res : WRes)
    (hleaf : leafVal v = true)
    (h : walk action fuel (.nested path v j) rels = some res) :
    res = .ok [path] [] (.val v) rels := by
  cases fuel with
  | zero => simp [walk] at h
  | succ n =>
      cases v with
      | vStr s => simp only [walk, Option.some.injEq] at h; exact h.symm
      | vInt m => simp only [walk, Option.some.injEq] at h; exact h.symm
      | vBool b => simp only [walk, Option.some.injEq] at h; exact h.symm
      | vRaw j0 => simp only [walk, Option.some.injEq] at h; exact h.symm
      | vPtr v0 =>
          cases v0 with
          | none => simp only [walk, Option.some.injEq] at h; exact h.symm
          | some w => simp [leafVal] at hleaf
      | vIDObj v0 =>
          cases v0 with
          | none => simp only [walk, Option.some.injEq] at h; exact h.symm
          | some o => simp [leafVal] at hleaf
      | vSlice o => simp [leafVal] at hleaf
      | vArray es => simp [leafVal] at hleaf
      | vMapStr o => simp [leafVal] at hleaf
      | vMapInt o => simp [leafVal] at hleaf
      | vRelManyStr o => simp [leafVal] at hleaf
      | vRelManyInt o => simp [leafVal] at hleaf
      | vStruct fs => simp [leafVal] at hleaf

/-- The field loop over flat fields: it produces no "does not exist" errors
of its own, and it preserves both the count of a raw key no field can
consume and the count of a relationship name no field can consume. -/
lemma floop_flat (action k nm : String) :
    ∀ (fuel : Nat) (flds : List MField) (path : String) (attrs : List (String × JSON))
      (rels : Rels) (F : List String) (E : List GoError) (flds' : List MField)
      (leftover : List (String × JSON)) (r' : Rels),
      (∀ fl ∈ flds, flatField fl = true) →
      (∀ fl ∈ flds, fieldConsumesAttr fl k = false) →
      (∀ fl ∈ flds, fieldConsumesRel fl nm = false) →
      walk action fuel (.floop path flds attrs) rels
        = some (.ok F E (.loopOut flds' leftover) r') →
      (∀ e ∈ E, e.detail ≠ "Attribute does not exist"
          ∧ e.detail ≠ "Relationship does not exist")
        ∧ countKey leftover k = countKey attrs k
        ∧ countKey r' nm = countKey rels nm := by
  intro fuel
  induction fuel with
  | zero =>
      intro flds path attrs rels F E flds' leftover r' _ _ _ h
      simp [walk] at h
  | succ n ih =>
      intro flds path attrs rels F E flds' leftover r' hflat hnoc hnorel h
      cases flds with
      | nil =>
          simp only [walk, Option.some.injEq] at h
          cases h
          exact ⟨by simp, rfl, rfl⟩
      | cons f rest =>
          have hflatf := hflat f (List.mem_cons_self f rest)
          have hnocf := hnoc f (List.mem_cons_self f rest)
          have hnorelf := hnorel f (List.mem_cons_self f rest)
          have hflatr : ∀ fl ∈ rest, flatField fl = true :=
            fun fl hfl => hflat fl (List.mem_cons_of_mem f hfl)
          have hnocr : ∀ fl ∈ rest, fieldConsumesAttr fl k = false :=
            fun fl hfl => hnoc fl (List.mem_cons_of_mem f hfl)
          have hnorelr : ∀ fl ∈ rest, fieldConsumesRel fl nm = false :=
            fun fl hfl => hnorel fl (List.mem_cons_of_mem f hfl)
          simp only [walk] at h
          split at h
          · -- unexported field: nothing consumed, no error added
            split at h
            · simp at h
            · simp at h
            · cases h
              obtain ⟨ihE, ihA, ihR⟩ :=
                ih rest path attrs rels _ _ _ _ _ hflatr hnocr hnorelr (by assumption)
              exact ⟨by simpa using ihE, ihA, ihR⟩
            · simp at h
          · rename_i hexp
            have hexp' : f.exported = true := by
              revert hexp; cases f.exported <;> simp
            split at h
            · -- relationship-tagged field
              rename_i hrel
              have hrt : relTagged f = true := hrel
              have heqf : eqFold nm f.name = false := by
                simp [fieldConsumesRel, hexp', hrt] at hnorelf
                exact hnorelf
              have hrcount : countKey (findRel rels f.name).2 nm = countKey rels nm :=
                findRel_countKey rels f.name nm heqf
              split at h
              · -- validation error
                rename_i b err hvr
                split at h
                · simp at h
                · simp at h
                · cases h
                  obtain ⟨ihE, ihA, ihR⟩ :=
                    ih rest path attrs (findRel rels f.name).2 _ _ _ _ _
                      hflatr hnocr hnorelr (by assumption)
                  refine ⟨?_, ihA, by rw [ihR, hrcount]⟩
                  intro e he
                  rcases List.mem_append.mp he with h1 | h2
                  · have hd := validateModelRelationship_err_detail _ _ _ _ _ _ hvr
                    rw [List.mem_singleton.mp h1]
                    rcases hd with hd | hd | hd | hd <;> rw [hd] <;> exact ⟨by decide, by decide⟩
                  · exact ihE e h2
                · simp at h
              · -- accepted: assign the relationship
                split at h
                · simp at h
                · rename_i r0 hfr
                  split at h
                  · simp at h
                  · -- assignment error
                    rename_i v' err hset
                    split at h
                    · simp at h
                    · simp at h
                    · cases h
                      obtain ⟨ihE, ihA, ihR⟩ :=
                        ih rest path attrs (findRel rels f.name).2 _ _ _ _ _
                          hflatr hnocr hnorelr (by assumption)
                      refine ⟨?_, ihA, by rw [ihR, hrcount]⟩
                      intro e he
                      rcases List.mem_append.mp he with h1 | h2
                      · have hd := setModelRelationship_err_detail _ _ _ _ _ _ hset
                        rw [List.mem_singleton.mp h1]
                        rcases hd with hd | hd <;> rw [hd] <;>
                          exact ⟨by decide, by decide⟩
                      · exact ihE e h2
                    · simp at h
                  · -- assignment succeeded
                    split at h
                    · simp at h
                    · simp at h
                    · cases h
                      obtain ⟨ihE, ihA, ihR⟩ :=
                        ih rest path attrs (findRel rels f.name).2 _ _ _ _ _
                          hflatr hnocr hnorelr (by assumption)
                      exact ⟨by simpa using ihE, ihA, by rw [ihR, hrcount]⟩
                    · simp at h
              · -- absent and not required: skipped
                split at h
                · simp at h
                · simp at h
                · cases h
                  obtain ⟨ihE, ihA, ihR⟩ :=
                    ih rest path attrs (findRel rels f.name).2 _ _ _ _ _
                      hflatr hnocr hnorelr (by assumption)
                  exact ⟨by simpa using ihE, ihA, by rw [ihR, hrcount]⟩
                · simp at h
            · -- ordinary attribute field
              rename_i hrelneg
              have hrt : relTagged f = false := by
                revert hrelneg
                show ¬(relTagged f = true) → _
                cases relTagged f <;> simp
              split at h
              · -- json "-": skipped entirely
                split at h
                · simp at h
                · simp at h
                · cases h
                  obtain ⟨ihE, ihA, ihR⟩ :=
                    ih rest path attrs rels _ _ _ _ _ hflatr hnocr hnorelr (by assumption)
                  exact ⟨by simpa using ihE, ihA, ihR⟩
                · simp at h
              · rename_i hdash
                have heqk : eqFold k (decodeJSONTag f) = false := by
                  simp [fieldConsumesAttr, hexp', hrt, hdash] at hnocf
                  exact hnocf
                have hacount : countKey (findAttr attrs (decodeJSONTag f)).2 k
                    = countKey attrs k :=
                  findAttr_countKey attrs (decodeJSONTag f) k heqk
                have hleaf : leafVal f.value = true := by
                  simp [flatField, hexp', hrt, hdash] at hflatf
                  exact hflatf
                split at h
                · -- field validation error
                  rename_i b err hvf
                  split at h
                  · simp at h
                  · simp at h
                  · cases h
                    obtain ⟨ihE, ihA, ihR⟩ :=
                      ih rest path (findAttr attrs (decodeJSONTag f)).2 rels _ _ _ _ _
                        hflatr hnocr hnorelr (by assumption)
                    refine ⟨?_, by rw [ihA, hacount], ihR⟩
                    intro e he
                    rcases List.mem_append.mp he with h1 | h2
                    · have hd := validateModelField_err_detail _ _ _ _ _ hvf
                      rw [List.mem_singleton.mp h1]
                      rcases hd with hd | hd <;> rw [hd] <;> exact ⟨by decide, by decide⟩
                    · exact ihE e h2
                  · simp at h
                · -- absent, not required: skipped
                  split at h
                  · simp at h
                  · simp at h
                  · cases h
                    obtain ⟨ihE, ihA, ihR⟩ :=
                      ih rest path (findAttr attrs (decodeJSONTag f)).2 rels _ _ _ _ _
                        hflatr hnocr hnorelr (by assumption)
                    exact ⟨by simpa using ihE, by rw [ihA, hacount], ihR⟩
                  · simp at h
                · -- accepted: nested resolution of a leaf value
                  split at h
                  · simp at h
                  · simp at h
                  · rename_i nf ne v' rels2 heqn
                    have hres := walk_nested_leaf action n _ f.value _ rels _ hleaf heqn
                    cases hres
                    split at h
                    · split at h
                      · simp at h
                      · simp at h
                      · cases h
                        obtain ⟨ihE, ihA, ihR⟩ :=
                          ih rest path (findAttr attrs (decodeJSONTag f)).2 rels _ _ _ _ _
                            hflatr hnocr hnorelr (by assumption)
                        exact ⟨by simpa using ihE, by rw [ihA, hacount], ihR⟩
                      · simp at h
                    · simp_all
                  · simp at h

lemma string_append_left_cancel (s a b : String) (h : s ++ a = s ++ b) : a = b := by
  have hd := congrArg String.data h
  simp only [String.data_append] at hd
  exact String.ext (List.append_cancel_left hd)

lemma joinPath_empty (s : String) : joinPath "" s = s := by simp [joinPath]

lemma countErr_eq_zero_of_detail (errs : List GoError) (d p : String)
    (h : ∀ e ∈ errs, e.detail ≠ d) : countErr errs d p = 0 := by
  apply List.countP_eq_zero.mpr
  intro e he
  have := h e he
  simp only [Bool.and_eq_true, beq_iff_eq]
  intro hc
  exact this hc.1

lemma countErr_map_unknown_attr (leftover : List (String × JSON)) (k : String) :
    countErr (leftover.map fun kv => InputError "Attribute does not exist" kv.1)
        "Attribute does not exist" (AttributePointer k)
      = countKey leftover k := by
  unfold countErr countKey
  rw [List.countP_map]
  apply List.countP_congr
  intro kv _
  by_cases hkv : kv.1 = k
  · simp [InputError, hkv]
  · have hne : ¬(AttributePointer kv.1 = AttributePointer k) :=
      fun hc => hkv (string_append_left_cancel _ _ _ hc)
    simp [InputError, hkv, hne]

lemma countErr_map_unknown_rel (rl : Rels) (nm : String) :
    countErr (rl.map fun kv => RelationshipError "Relationship does not exist" kv.1)
        "Relationship does not exist" (RelationshipPointer nm)
      = countKey rl nm := by
  unfold countErr countKey
  rw [List.countP_map]
  apply List.countP_congr
  intro kv _
  by_cases hkv : kv.1 = nm
  · simp [RelationshipError, hkv]
  · have hne : ¬(RelationshipPointer kv.1 = RelationshipPointer nm) :=
      fun hc => hkv (string_append_left_cancel _ _ _ hc)
    simp [RelationshipError, hkv, hne]

/-- Amended claim C7: at a struct level whose fields are all flat (skipped,
relationship-tagged, or leaf-valued, so that no nested struct level is
entered), a successful-or-failed Validate call reports exactly one
unknown-attribute error for each raw key no field can consume and exactly
one unknown-relationship error for each supplied relationship name no field
can consume.  (In general the relationship half holds once per completed
struct level, as the counterexample shows.) -/
theorem C7_amended_exactly_one_unknown_per_level (fuel : Nat) (action : String)
    (flds : List MField) (attrsJ : Option JSON) (rels : Rels)
    (A : List (String × JSON)) (k nm : String) (F : List String)
    (E : List GoError) (o : WOut) (r' : Rels)
    (hA : decodeKeys attrsJ = .ok A)
    (hk : lookupKey A k ≠ none)
    (hflat : ∀ fl ∈ flds, flatField fl = true)
    (hnoc : ∀ fl ∈ flds, fieldConsumesAttr fl k = false)
    (hnm : lookupKey rels nm ≠ none)
    (hnodup : (rels.map Prod.fst).Nodup)
    (hnorel : ∀ fl ∈ flds, fieldConsumesRel fl nm = false)
    (hrun : Validate fuel action (.vPtr (some (.vStruct flds))) attrsJ rels
      = some (.ok F E o r')) :
    countErr E "Attribute does not exist" (AttributePointer k) = 1
      ∧ countErr E "Relationship does not exist" (RelationshipPointer nm) = 1 := by
  have hAcnt : countKey A k = 1 :=
    countKey_of_mem_nodup A k (decodeKeys_nodup attrsJ A hA) hk
  have hRcnt : countKey rels nm = 1 := countKey_of_mem_nodup rels nm hnodup hnm
  simp only [Validate] at hrun
  split at hrun
  · simp at hrun
  · simp at hrun
  · rename_i f0 e0 flds2 r2 heqw
    cases hrun
    cases fuel with
    | zero => simp [walk] at heqw
    | succ n =>
        simp only [walk] at heqw
        split at heqw
        · rename_i e1 hdk
          rw [hA] at hdk
          cases hdk
        · rename_i attrs0 hdk
          rw [hA] at hdk
          injection hdk with hdk'
          subst hdk'
          split at heqw
          · simp at heqw
          · rename_i res heqf
            injection heqw with heqw'
            cases res with
            | crash => simp [structFinish] at heqw'
            | ok Ff Ef out r1 =>
                cases out with
                | loopOut flds1 leftover =>
                    obtain ⟨hE0, hcntA, hcntR⟩ :=
                      floop_flat action k nm n flds "" A rels Ff Ef flds1 leftover r1
                        hflat hnoc hnorel heqf
                    rw [hAcnt] at hcntA
                    rw [hRcnt] at hcntR
                    simp only [structFinish, joinPath_empty] at heqw'
                    split at heqw'
                    · -- no errors at all: impossible, the unconsumed key k
                      -- forces an unknown-attribute error
                      rename_i hemp
                      rw [List.isEmpty_iff] at hemp
                      have h1 := List.append_eq_nil.mp hemp
                      have h2 := List.append_eq_nil.mp h1.1
                      have : leftover = [] := by
                        have := congrArg List.length h2.2
                        simpa using List.eq_nil_of_length_eq_zero (by simpa using this)
                      rw [this] at hcntA
                      simp [countKey] at hcntA
                    · cases heqw'
                      constructor
                      · rw [countErr, List.countP_append, List.countP_append]
                        rw [← countErr, ← countErr, ← countErr]
                        rw [countErr_eq_zero_of_detail Ef _ _
                            (fun e he => (hE0 e he).1)]
                        rw [countErr_map_unknown_attr leftover k, hcntA]
                        rw [countErr_eq_zero_of_detail _ _ _ (by
                          intro e he
                          obtain ⟨kv, _, hkv⟩ := List.mem_map.mp he
                          rw [← hkv]
                          show ("Relationship does not exist" : String) ≠ "Attribute does not exist"
                          decide)]
                      · rw [countErr, List.countP_append, List.countP_append]
                        rw [← countErr, ← countErr, ← countErr]
                        rw [countErr_eq_zero_of_detail Ef _ _
                            (fun e he => (hE0 e he).2)]
                        rw [countErr_eq_zero_of_detail _ _ _ (by
                          intro e he
                          obtain ⟨kv, _, hkv⟩ := List.mem_map.mp he
                          rw [← hkv]
                          show ("Attribute does not exist" : String) ≠ "Relationship does not exist"
                          decide)]
                        rw [countErr_map_unknown_rel, hcntR]
                | val v => simp [structFinish] at heqw'
                | strukt fs => simp [structFinish] at heqw'
                | elems vs => simp [structFinish] at heqw'
                | entries es => simp [structFinish] at heqw'
  · simp at hrun

/-- Witness for the amended C7 at a concrete flat model: one unconsumed raw
key and one unconsumed relationship name each produce exactly one error. -/
theorem C7_amended_witness :
    decodeKeys (some (.obj [("name", .str "n"), ("zzz", .str "1")]))
        = .ok [("name", JSON.str "n"), ("zzz", JSON.str "1")]
      ∧ (countErr [InputError "Attribute does not exist" "zzz",
            RelationshipError "Relationship does not exist" "bogus"]
            "Attribute does not exist" (AttributePointer "zzz") = 1
          ∧ countErr [InputError "Attribute does not exist" "zzz",
              RelationshipError "Relationship does not exist" "bogus"]
              "Relationship does not exist" (RelationshipPointer "bogus") = 1) := by
  refine ⟨rfl, ?_⟩
  exact C7_amended_exactly_one_unknown_per_level 10 "create"
    [⟨"Name", "name", "create", true, .vStr "n"⟩]
    (some (.obj [("name", .str "n"), ("zzz", .str "1")]))
    [("bogus", some ⟨[⟨"t", "1"⟩]⟩)]
    [("name", JSON.str "n"), ("zzz", JSON.str "1")] "zzz" "bogus"
    [] [InputError "Attribute does not exist" "zzz",
        RelationshipError "Relationship does not exist" "bogus"]
    (.val (.vPtr (some (.vStruct [⟨"Name", "name", "create", true, .vStr "n"⟩]))))
    [("bogus", some ⟨[⟨"t", "1"⟩]⟩)]
    rfl (fun hc => Option.noConfusion hc) (by decide) (by decide)
    (fun hc => Option.noConfusion hc) (by simp) (by decide) rfl

lemma lookup_upsert {κ α : Type} [DecidableEq κ] (m : List (κ × α)) (k k' : κ) (v : α) :
    lookupKey (upsert m k v) k' = if k = k' then some v else lookupKey m k' := by
  induction m with
  | nil =>
      by_cases hk : k = k' <;> simp [upsert, lookupKey, hk]
  | cons x t ih =>
      obtain ⟨k0, v0⟩ := x
      by_cases h0 : k0 = k
      · subst h0
        by_cases hk : k0 = k' <;> simp [upsert, lookupKey, hk]
      · by_cases hk : k0 = k'
        · subst hk
          have : ¬(k = k0) := fun hc => h0 hc.symm
          simp [upsert, lookupKey, h0, this]
        · simp [upsert, lookupKey, h0, hk, ih]

lemma upsert_eq_updFirst {κ α : Type} [DecidableEq κ] (m : List (κ × α)) (k : κ) (v : α)
    (h : lookupKey m k ≠ none) : upsert m k v = updFirst m k v := by
  induction m with
  | nil => simp [lookupKey] at h
  | cons x t ih =>
      obtain ⟨k0, v0⟩ := x
      by_cases h0 : k0 = k
      · simp [upsert, updFirst, h0]
      · simp only [lookupKey, if_neg h0] at h
        simp [upsert, updFirst, h0, ih h]

lemma updFirst_eq_mapFirst {κ α : Type} [DecidableEq κ] (m : List (κ × α)) (k : κ) (v : α) :
    ∀ (seen : List κ), k ∉ seen →
      updFirst m k v = mapFirst (fun k' => if k = k' then some v else none) m seen := by
  induction m with
  | nil => intro seen _; simp [updFirst, mapFirst]
  | cons x t ih =>
      intro seen hks
      obtain ⟨k0, v0⟩ := x
      by_cases h0 : k0 = k
      · subst h0
        have hmem : k0 ∉ seen := hks
        -- the remaining entries are untouched because k0 is now seen
        have untouched : ∀ (t : List (κ × α)) (seen : List κ), k0 ∈ seen →
            mapFirst (fun k' => if k0 = k' then some v else none) t seen = t := by
          intro t
          induction t with
          | nil => intro seen _; simp [mapFirst]
          | cons y u ihu =>
              intro seen hseen
              obtain ⟨k1, v1⟩ := y
              by_cases h1 : k1 ∈ seen
              · simp [mapFirst, h1, ihu seen hseen]
              · have hne : ¬(k0 = k1) := fun hc => h1 (hc ▸ hseen)
                simp [mapFirst, h1, hne, ihu (k1 :: seen) (List.mem_cons_of_mem _ hseen)]
        simp [updFirst, mapFirst, hmem,
          untouched t (k0 :: seen) (List.mem_cons_self k0 seen)]
      · have hne : ¬(k = k0) := fun hc => h0 hc.symm
        by_cases h1 : k0 ∈ seen
        · simp [updFirst, h0, mapFirst, h1, ih seen hks]
        · simp [updFirst, h0, mapFirst, h1, hne,
            ih (k0 :: seen) (by simp [hks, fun hc : k = k0 => hne hc])]

lemma mapFirst_none {κ α : Type} [DecidableEq κ] (m : List (κ × α)) :
    ∀ (seen : List κ), mapFirst (fun _ => (none : Option α)) m seen = m := by
  induction m with
  | nil => intro seen; simp [mapFirst]
  | cons x t ih =>
      intro seen
      obtain ⟨k0, v0⟩ := x
      by_cases h0 : k0 ∈ seen <;> simp [mapFirst, h0, ih]

lemma mapFirst_comp {κ α : Type} [DecidableEq κ] (σ1 σ2 : κ → Option α)
    (m : List (κ × α)) :
    ∀ (seen : List κ), mapFirst σ1 (mapFirst σ2 m seen) seen
      = mapFirst (fun k => (σ1 k).orElse fun _ => σ2 k) m seen := by
  induction m with
  | nil => intro seen; simp [mapFirst]
  | cons x t ih =>
      intro seen
      obtain ⟨k0, v0⟩ := x
      by_cases h0 : k0 ∈ seen
      · simp [mapFirst, h0, ih]
      · simp only [mapFirst, if_neg h0, ih]
        have : (σ1 k0).getD ((σ2 k0).getD v0) = ((σ1 k0).orElse fun _ => σ2 k0).getD v0 := by
          cases σ1 k0 <;> simp [Option.orElse]
        rw [this]

lemma mapFirst_fixpoint {κ α : Type} [DecidableEq κ] (σ : κ → Option α) :
    ∀ (m : List (κ × α)) (seen : List κ),
      (∀ k w, k ∉ seen → σ k = some w → lookupKey m k = some w) →
      mapFirst σ m seen = m := by
  intro m
  induction m with
  | nil => intro seen _; simp [mapFirst]
  | cons x t ih =>
      intro seen hσ
      obtain ⟨k0, v0⟩ := x
      by_cases h0 : k0 ∈ seen
      · rw [mapFirst, if_pos h0]
        rw [ih seen fun k w hk hs => ?_]
        have := hσ k w hk hs
        have hk0 : ¬(k0 = k) := fun hc => hk (hc ▸ h0)
        rw [lookupKey, if_neg hk0] at this
        exact this
      · rw [mapFirst, if_neg h0]
        have hval : (σ k0).getD v0 = v0 := by
          cases hs : σ k0 with
          | none => simp
          | some w =>
              have := hσ k0 w h0 hs
              rw [lookupKey, if_pos rfl] at this
              injection this with h
              simp [h]
        rw [hval]
        rw [ih (k0 :: seen) fun k w hk hs => ?_]
        have hk0 : ¬(k0 = k) := fun hc => hk (hc ▸ List.mem_cons_self k0 seen)
        have := hσ k w (fun hc => hk (List.mem_cons_of_mem k0 hc)) hs
        rw [lookupKey, if_neg hk0] at this
        exact this

lemma lastVal_cons {κ α : Type} [DecidableEq κ] (d : κ × α) (t : List (κ × α)) (k : κ) :
    lastVal (d :: t) k
      = (lastVal t k).orElse fun _ => if d.1 = k then some d.2 else none := by
  obtain ⟨k0, v0⟩ := d
  rw [lastVal]
  cases lastVal t k <;> simp [Option.orElse]

lemma lastVal_none_not_key {κ α : Type} [DecidableEq κ] :
    ∀ (ds : List (κ × α)) (k : κ), lastVal ds k = none → ∀ d ∈ ds, d.1 ≠ k := by
  intro ds
  induction ds with
  | nil => intro k _ d hd; cases hd
  | cons x t ih =>
      intro k h d hd
      rw [lastVal_cons] at h
      cases ht : lastVal t k with
      | some w => rw [ht] at h; simp [Option.orElse] at h
      | none =>
          rw [ht] at h
          simp only [Option.orElse, Option.none_orElse] at h
          cases hd with
          | head =>
              intro hc
              rw [if_pos hc] at h
              cases h
          | tail _ hd2 => exact ih k ht d hd2

lemma mem_lastVal_isSome {κ α : Type} [DecidableEq κ] :
    ∀ (ds : List (κ × α)) (d : κ × α), d ∈ ds → lastVal ds d.1 ≠ none := by
  intro ds d hd hnone
  exact lastVal_none_not_key ds d.1 hnone d hd rfl

lemma lookup_foldl_untouched {κ α : Type} [DecidableEq κ] :
    ∀ (ds : List (κ × α)) (m : List (κ × α)) (k : κ), (∀ d ∈ ds, d.1 ≠ k) →
      lookupKey (ds.foldl (fun m d => upsert m d.1 d.2) m) k = lookupKey m k := by
  intro ds
  induction ds with
  | nil => intro m k _; rfl
  | cons d rest ih =>
      intro m k h
      rw [List.foldl_cons, ih (upsert m d.1 d.2) k fun x hx => h x (List.mem_cons_of_mem d hx)]
      rw [lookup_upsert, if_neg (h d (List.mem_cons_self d rest))]

lemma lookup_foldl_lastVal {κ α : Type} [DecidableEq κ] :
    ∀ (ds : List (κ × α)) (m : List (κ × α)) (k : κ) (w : α), lastVal ds k = some w →
      lookupKey (ds.foldl (fun m d => upsert m d.1 d.2) m) k = some w := by
  intro ds
  induction ds with
  | nil => intro m k w h; simp [lastVal] at h
  | cons d rest ih =>
      intro m k w h
      rw [lastVal_cons] at h
      cases ht : lastVal rest k with
      | some w' =>
          rw [ht] at h
          simp only [Option.orElse, Option.some_orElse] at h
          rw [List.foldl_cons]
          exact ih (upsert m d.1 d.2) k w (by rw [ht]; exact h)
      | none =>
          rw [ht] at h
          simp only [Option.orElse, Option.none_orElse] at h
          by_cases hd : d.1 = k
          · rw [if_pos hd] at h
            injection h with h2
            rw [List.foldl_cons,
              lookup_foldl_untouched rest (upsert m d.1 d.2) k (lastVal_none_not_key rest k ht)]
            rw [lookup_upsert, if_pos hd, h2]
          · rw [if_neg hd] at h
            cases h

lemma foldl_upsert_eq_mapFirst {κ α : Type} [DecidableEq κ] :
    ∀ (ds : List (κ × α)) (m : List (κ × α)), (∀ d ∈ ds, lookupKey m d.1 ≠ none) →
      ds.foldl (fun m d => upsert m d.1 d.2) m = mapFirst (lastVal ds) m [] := by
  intro ds
  induction ds with
  | nil =>
      intro m _
      have hnone : lastVal ([] : List (κ × α)) = fun _ => (none : Option α) :=
        funext fun k => rfl
      rw [List.foldl_nil, hnone, mapFirst_none]
  | cons d rest ih =>
      intro m hpres
      have hpresd := hpres d (List.mem_cons_self d rest)
      have hpresr : ∀ d' ∈ rest, lookupKey (upsert m d.1 d.2) d'.1 ≠ none := by
        intro d' hd'
        rw [lookup_upsert]
        by_cases hc : d.1 = d'.1
        · simp [hc]
        · rw [if_neg hc]
          exact hpres d' (List.mem_cons_of_mem d hd')
      rw [List.foldl_cons, ih (upsert m d.1 d.2) hpresr]
      rw [upsert_eq_updFirst m d.1 d.2 hpresd]
      rw [updFirst_eq_mapFirst m d.1 d.2 [] (by simp)]
      rw [mapFirst_comp]
      have : (fun k => (lastVal rest k).orElse fun _ => if d.1 = k then some d.2 else none)
          = lastVal (d :: rest) := funext fun k => (lastVal_cons d rest k).symm
      rw [this]

lemma foldl_upsert_idem {κ α : Type} [DecidableEq κ] (ds : List (κ × α))
    (m : List (κ × α)) :
    ds.foldl (fun m d => upsert m d.1 d.2) (ds.foldl (fun m d => upsert m d.1 d.2) m)
      = ds.foldl (fun m d => upsert m d.1 d.2) m := by
  have hpres : ∀ d ∈ ds,
      lookupKey (ds.foldl (fun m d => upsert m d.1 d.2) m) d.1 ≠ none := by
    intro d hd
    have hsome := mem_lastVal_isSome ds d hd
    cases hl : lastVal ds d.1 with
    | none => exact absurd hl hsome
    | some w =>
        rw [lookup_foldl_lastVal ds m d.1 w hl]
        simp
  rw [foldl_upsert_eq_mapFirst ds _ hpres]
  apply mapFirst_fixpoint
  intro k w _ hs
  exact lookup_foldl_lastVal ds m k w hs

lemma setManyStrLoop_eq_foldl :
    ∀ (ds : List IDObject) (es : List (String × IDObject)),
      setManyStrLoop es ds
        = (ds.map fun d => (d.id, d)).foldl (fun m p => upsert m p.1 p.2) es := by
  intro ds
  induction ds with
  | nil => intro es; rfl
  | cons d rest ih => intro es; simp [setManyStrLoop, ih]

lemma setManyStrLoop_idem (es : List (String × IDObject)) (ds : List IDObject) :
    setManyStrLoop (setManyStrLoop es ds) ds = setManyStrLoop es ds := by
  rw [setManyStrLoop_eq_foldl, setManyStrLoop_eq_foldl]
  exact foldl_upsert_idem _ es

lemma setManyIntLoop_all_parse (name : String) :
    ∀ (ds : List IDObject) (es : List (Int × IDObject)),
      (∀ d ∈ ds, goAtoi d.id ≠ none) →
      setManyIntLoop name es ds
        = ((ds.map fun d => ((goAtoi d.id).getD 0, d)).foldl
            (fun m p => upsert m p.1 p.2) es, none) := by
  intro ds
  induction ds with
  | nil => intro es _; rfl
  | cons d rest ih =>
      intro es hall
      obtain ⟨n, hn⟩ :=
        Option.ne_none_iff_exists'.mp (hall d (List.mem_cons_self d rest))
      simp only [setManyIntLoop, hn, List.map_cons, List.foldl_cons, Option.getD_some]
      exact ih (upsert es n d) fun x hx => hall x (List.mem_cons_of_mem d hx)

lemma setManyIntLoop_idem (name : String) (es es' : List (Int × IDObject))
    (ds : List IDObject) (h : setManyIntLoop name es ds = (es', none)) :
    setManyIntLoop name es' ds = (es', none) := by
  have hall : ∀ d ∈ ds, goAtoi d.id ≠ none := by
    intro d hd hnone
    obtain ⟨es2, he⟩ := setManyIntLoop_first_failure name ds es ⟨d, hd, hnone⟩
    rw [h] at he
    injection he with h1 h2
    cases h2
  have h1 := setManyIntLoop_all_parse name ds es hall
  rw [h] at h1
  injection h1 with h2 _
  rw [setManyIntLoop_all_parse name ds es' hall]
  rw [h2]
  rw [foldl_upsert_idem]

lemma setModelRelationship_idem (name : String) (many : Bool) (r : Relationship)
    (v v' : MVal) (h : setModelRelationship name many r v = some (v', none)) :
    setModelRelationship name many r v' = some (v', none) := by
  unfold setModelRelationship at h ⊢
  split at h
  · -- to-many
    rename_i hmany
    rw [if_pos hmany]
    unfold setModelRelationshipMany at h ⊢
    cases v with
    | vRelManyStr o =>
        cases hd : r.data with
        | nil =>
            rw [hd] at h
            simp only at h
            injection h with h1
            injection h1 with h2 h3
            subst h2
            simp [hd]
        | cons d rest =>
            rw [hd] at h
            cases o with
            | none => simp at h
            | some es =>
                simp only [Option.some.injEq, Prod.mk.injEq] at h
                obtain ⟨h1, _⟩ := h
                subst h1
                simp only [hd]
                rw [setManyStrLoop_idem]
    | vRelManyInt o =>
        cases o with
        | some es =>
            simp only [Option.some.injEq, Prod.mk.injEq] at h
            obtain ⟨h1, h2⟩ := h
            subst h1
            have hloop : setManyIntLoop name es r.data
                = ((setManyIntLoop name es r.data).1, none) := by
              rw [Prod.ext_iff]
              exact ⟨rfl, h2⟩
            simp only
            rw [setManyIntLoop_idem name es (setManyIntLoop name es r.data).1 r.data hloop]
        | none =>
            cases hd : r.data with
            | nil =>
                rw [hd] at h
                injection h with h1
                injection h1 with h2 h3
                subst h2
                simp [hd]
            | cons d rest =>
                rw [hd] at h
                dsimp only at h
                split at h
                · simp at h
                · simp at h
    | vMapStr o =>
        cases hd : r.data with
        | nil =>
            rw [hd] at h
            injection h with h1
            injection h1 with h2 h3
            subst h2
            simp [hd]
        | cons d rest => rw [hd] at h; simp at h
    | vMapInt o =>
        cases hd : r.data with
        | nil =>
            rw [hd] at h
            injection h with h1
            injection h1 with h2 h3
            subst h2
            simp [hd]
        | cons d rest => rw [hd] at h; simp at h
    | vStr s => simp at h
    | vInt n => simp at h
    | vBool b => simp at h
    | vRaw j0 => simp at h
    | vPtr v0 => simp at h
    | vIDObj v0 => simp at h
    | vSlice v0 => simp at h
    | vArray es => simp at h
    | vStruct fs => simp at h
  · -- to-one
    rename_i hmany
    rw [if_neg hmany]
    unfold setModelRelationshipOne at h ⊢
    cases hd : r.data with
    | nil => rw [hd] at h; cases h
    | cons d rest =>
        rw [hd] at h
        cases v with
        | vIDObj v0 =>
            simp only [Option.some.injEq, Prod.mk.injEq] at h
            obtain ⟨h1, _⟩ := h
            subst h1
            simp
        | vStr s => simp at h
        | vInt n => simp at h
        | vBool b => simp at h
        | vRaw j0 => simp at h
        | vPtr v0 => simp at h
        | vSlice v0 => simp at h
        | vArray es => simp at h
        | vMapStr o => simp at h
        | vMapInt o => simp at h
        | vRelManyStr o => simp at h
        | vRelManyInt o => simp at h
        | vStruct fs => simp at h

lemma insertEntry_cons_of_le (e x : String × MVal) (t : List (String × MVal))
    (h : e.1 ≤ x.1) : insertEntry e (x :: t) = e :: x :: t := by
  simp [insertEntry, h]

lemma sortEntries_eq_self (l : List (String × MVal))
    (h : List.Chain' (fun a b : String × MVal => a.1 ≤ b.1) l) : sortEntries l = l := by
  induction l with
  | nil => rfl
  | cons e t ih =>
      rw [sortEntries, ih h.tail]
      cases t with
      | nil => rfl
      | cons x t' =>
          exact insertEntry_cons_of_le e x t' (List.chain'_cons.mp h).1

lemma insertEntry_sorted (e : String × MVal) :
    ∀ (l : List (String × MVal)),
      List.Chain' (fun a b : String × MVal => a.1 ≤ b.1) l →
      List.Chain' (fun a b : String × MVal => a.1 ≤ b.1) (insertEntry e l) := by
  intro l
  induction l with
  | nil => intro _; simp [insertEntry]
  | cons x t ih =>
      intro h
      by_cases hle : e.1 ≤ x.1
      · rw [insertEntry_cons_of_le e x t hle]
        exact List.chain'_cons.mpr ⟨hle, h⟩
      · have hxe : x.1 ≤ e.1 := le_of_not_le hle
        simp only [insertEntry, if_neg hle]
        cases ht : t with
        | nil => simpa [insertEntry] using hxe
        | cons y t' =>
            subst ht
            have hrec := ih h.tail
            by_cases hey : e.1 ≤ y.1
            · rw [insertEntry_cons_of_le e y t' hey] at hrec ⊢
              exact List.chain'_cons.mpr ⟨hxe, hrec⟩
            · simp only [insertEntry, if_neg hey] at hrec ⊢
              exact List.chain'_cons.mpr ⟨(List.chain'_cons.mp h).1, hrec⟩

lemma sortEntries_sorted (l : List (String × MVal)) :
    List.Chain' (fun a b : String × MVal => a.1 ≤ b.1) (sortEntries l) := by
  induction l with
  | nil => simp [sortEntries]
  | cons e t ih => exact insertEntry_sorted e (sortEntries t) ih

lemma walk_mapLoop_keys (action : String) :
    ∀ (fuel : Nat) (path : String) (es : List (String × MVal))
      (jv : List (String × JSON)) (rels : Rels) (mf : List String)
      (me : List GoError) (es' : List (String × MVal)) (rels' : Rels),
      walk action fuel (.mapLoop path es jv) rels = some (.ok mf me (.entries es') rels') →
      es'.map Prod.fst = es.map Prod.fst := by
  intro fuel
  induction fuel with
  | zero => intro path es jv rels mf me es' rels' h; simp [walk] at h
  | succ n ih =>
      intro path es jv rels mf me es' rels' h
      cases es with
      | nil => simp only [walk, Option.some.injEq] at h; cases h; rfl
      | cons x rest =>
          simp only [walk] at h
          split at h
          · simp at h
          · simp at h
          · split at h
            · split at h
              · simp at h
              · simp at h
              · split at h
                · cases h
                  simp [ih _ _ _ _ _ _ _ _ (by assumption)]
                · cases h
                  simp [ih _ _ _ _ _ _ _ _ (by assumption)]
              · simp at h
            · cases h
              rfl
          · simp at h

lemma setModelRelationship_zero_mono (name : String) (many : Bool) (r : Relationship)
    (v v' : MVal) (oe : Option GoError)
    (h : setModelRelationship name many r v = some (v', oe)) :
    isZero v = false → isZero v' = false := by
  intro hz
  unfold setModelRelationship at h
  split at h
  · unfold setModelRelationshipMany at h
    split at h
    · split at h
      · cases h; exact hz
      · split at h
        · cases h
        · cases h; rfl
    · split at h
      · cases h; rfl
      · split at h
        · cases h; exact hz
        · split at h
          · cases h; exact hz
          · cases h
    · split at h
      · cases h; exact hz
      · cases h; exact hz
    · split at h
      · cases h; exact hz
      · cases h; exact hz
    · cases h; exact hz
  · unfold setModelRelationshipOne at h
    split at h
    · cases h
    · split at h
      · cases h; rfl
      · cases h; exact hz

lemma isZeroFields_cons_iff (f : MField) (t : List MField) :
    isZeroFields (f :: t) = false ↔ (isZero f.value = false ∨ isZeroFields t = false) := by
  obtain ⟨a, b, c, d, v⟩ := f
  simp only [isZeroFields, MField.value, Bool.and_eq_false_iff]

lemma isZeroList_cons_iff (x : MVal) (t : List MVal) :
    isZeroList (x :: t) = false ↔ (isZero x = false ∨ isZeroList t = false) := by
  simp only [isZeroList, Bool.and_eq_false_iff]

/-- The walker never turns a non-absent value into an absent one: the only
model mutations are relationship assignments, which produce non-nil
values. -/
lemma walk_zero_mono (action : String) :
    ∀ (fuel : Nat),
      (∀ path fv j rels f e v' r',
        walk action fuel (.nested path fv j) rels = some (.ok f e (.val v') r') →
        isZero fv = false → isZero v' = false)
      ∧ (∀ path flds j rels f e flds' r',
        walk action fuel (.vstruct path flds j) rels = some (.ok f e (.strukt flds') r') →
        isZeroFields flds = false → isZeroFields flds' = false)
      ∧ (∀ path flds attrs rels f e flds' leftover r',
        walk action fuel (.floop path flds attrs) rels
          = some (.ok f e (.loopOut flds' leftover) r') →
        isZeroFields flds = false → isZeroFields flds' = false)
      ∧ (∀ path i elems jArr rels f e vs' r',
        walk action fuel (.sliceLoop path i elems jArr) rels
          = some (.ok f e (.elems vs') r') →
        isZeroList elems = false → isZeroList vs' = false) := by
  intro fuel
  induction fuel with
  | zero =>
      refine ⟨?_, ?_, ?_, ?_⟩
      · intro p fv j rels f e v' r' h; simp [walk] at h
      · intro p flds j rels f e flds' r' h; simp [walk] at h
      · intro p flds attrs rels f e flds' lo r' h; simp [walk] at h
      · intro p i elems jArr rels f e vs' r' h; simp [walk] at h
  | succ n ih =>
      obtain ⟨ihN, ihS, ihF, ihL⟩ := ih
      refine ⟨?_, ?_, ?_, ?_⟩
      · -- nested
        intro path fv j rels f e v' r' h hz
        cases fv with
        | vStr s => simp only [walk, Option.some.injEq] at h; cases h; exact hz
        | vInt m => simp only [walk, Option.some.injEq] at h; cases h; exact hz
        | vBool b => simp only [walk, Option.some.injEq] at h; cases h; exact hz
        | vRaw j0 => simp only [walk, Option.some.injEq] at h; cases h; exact hz
        | vPtr v0 =>
            cases v0 with
            | none => simp only [walk, Option.some.injEq] at h; cases h; exact hz
            | some w =>
                simp only [walk] at h
                split at h
                · simp at h
                · simp at h
                · cases h; rfl
                · simp at h
        | vIDObj v0 =>
            cases v0 with
            | none => simp only [walk, Option.some.injEq] at h; cases h; exact hz
            | some o =>
                simp only [walk] at h
                split at h
                · simp at h
                · simp at h
                · split at h
                  · cases h; exact hz
                  · cases h; exact hz
                · simp at h
        | vSlice o =>
            cases o with
            | none => simp [isZero] at hz
            | some es =>
                simp only [walk] at h
                split at h
                · cases h; exact hz
                · split at h
                  · simp at h
                  · simp at h
                  · split at h
                    · cases h; rfl
                    · cases h; rfl
                  · simp at h
        | vArray es =>
            simp only [walk] at h
            split at h
            · cases h; exact hz
            · split at h
              · simp at h
              · simp at h
              · split at h
                · cases h
                  exact ihL _ _ _ _ _ _ _ _ _ (by assumption) hz
                · cases h
                  exact ihL _ _ _ _ _ _ _ _ _ (by assumption) hz
              · simp at h
        | vMapStr o =>
            cases o with
            | none => simp [isZero] at hz
            | some es =>
                simp only [walk] at h
                split at h
                · cases h; exact hz
                · split at h
                  · simp at h
                  · simp at h
                  · split at h
                    · cases h; rfl
                    · cases h; rfl
                  · simp at h
        | vMapInt o =>
            simp only [walk, Option.some.injEq] at h; cases h; exact hz
        | vRelManyStr o =>
            cases o with
            | none => simp [isZero] at hz
            | some es =>
                simp only [walk] at h
                split at h
                · cases h; exact hz
                · split at h
                  · simp at h
                  · simp at h
                  · split at h
                    · cases h; exact hz
                    · cases h; exact hz
                  · simp at h
        | vRelManyInt o =>
            simp only [walk, Option.some.injEq] at h; cases h; exact hz
        | vStruct flds =>
            simp only [walk] at h
            split at h
            · simp at h
            · simp at h
            · split at h
              · cases h
                exact ihS _ _ _ _ _ _ _ _ (by assumption) hz
              · cases h
                exact ihS _ _ _ _ _ _ _ _ (by assumption) hz
            · simp at h
      · -- vstruct
        intro path flds j rels f e flds' r' h hz
        simp only [walk] at h
        split at h
        · cases h; exact hz
        · split at h
          · simp at h
          · rename_i res heq
            injection h with h'
            cases res with
            | crash => simp [structFinish] at h'
            | ok Ff Ef out r1 =>
                cases out with
                | loopOut flds1 leftover =>
                    simp only [structFinish] at h'
                    split at h'
                    · cases h'
                      exact ihF _ _ _ _ _ _ _ _ _ heq hz
                    · cases h'
                      exact ihF _ _ _ _ _ _ _ _ _ heq hz
                | val v => simp [structFinish] at h'
                | strukt fs => simp [structFinish] at h'
                | elems vs => simp [structFinish] at h'
                | entries es => simp [structFinish] at h'
      · -- floop
        intro path flds attrs rels f e flds' leftover r' h hz
        cases flds with
        | nil => simp [isZeroFields] at hz
        | cons fl rest =>
            have hz2 := (isZeroFields_cons_iff fl rest).mp hz
            simp only [walk] at h
            split at h
            · split at h
              · simp at h
              · simp at h
              · cases h
                rcases hz2 with hv | hr
                · exact (isZeroFields_cons_iff _ _).mpr (Or.inl hv)
                · exact (isZeroFields_cons_iff _ _).mpr
                    (Or.inr (ihF _ _ _ _ _ _ _ _ _ (by assumption) hr))
              · simp at h
            · split at h
              · split at h
                · split at h
                  · simp at h
                  · simp at h
                  · cases h
                    rcases hz2 with hv | hr
                    · exact (isZeroFields_cons_iff _ _).mpr (Or.inl hv)
                    · exact (isZeroFields_cons_iff _ _).mpr
                        (Or.inr (ihF _ _ _ _ _ _ _ _ _ (by assumption) hr))
                  · simp at h
                · split at h
                  · simp at h
                  · split at h
                    · simp at h
                    · rename_i v' err hset
                      split at h
                      · simp at h
                      · simp at h
                      · cases h
                        rcases hz2 with hv | hr
                        · exact (isZeroFields_cons_iff _ _).mpr
                            (Or.inl (setModelRelationship_zero_mono _ _ _ _ _ _ hset hv))
                        · exact (isZeroFields_cons_iff _ _).mpr
                            (Or.inr (ihF _ _ _ _ _ _ _ _ _ (by assumption) hr))
                      · simp at h
                    · rename_i v' hset
                      split at h
                      · simp at h
                      · simp at h
                      · cases h
                        rcases hz2 with hv | hr
                        · exact (isZeroFields_cons_iff _ _).mpr
                            (Or.inl (setModelRelationship_zero_mono _ _ _ _ _ _ hset hv))
                        · exact (isZeroFields_cons_iff _ _).mpr
                            (Or.inr (ihF _ _ _ _ _ _ _ _ _ (by assumption) hr))
                      · simp at h
                · split at h
                  · simp at h
                  · simp at h
                  · cases h
                    rcases hz2 with hv | hr
                    · exact (isZeroFields_cons_iff _ _).mpr (Or.inl hv)
                    · exact (isZeroFields_cons_iff _ _).mpr
                        (Or.inr (ihF _ _ _ _ _ _ _ _ _ (by assumption) hr))
                  · simp at h
              · split at h
                · split at h
                  · simp at h
                  · simp at h
                  · cases h
                    rcases hz2 with hv | hr
                    · exact (isZeroFields_cons_iff _ _).mpr (Or.inl hv)
                    · exact (isZeroFields_cons_iff _ _).mpr
                        (Or.inr (ihF _ _ _ _ _ _ _ _ _ (by assumption) hr))
                  · simp at h
                · split at h
                  · split at h
                    · simp at h
                    · simp at h
                    · cases h
                      rcases hz2 with hv | hr
                      · exact (isZeroFields_cons_iff _ _).mpr (Or.inl hv)
                      · exact (isZeroFields_cons_iff _ _).mpr
                          (Or.inr (ihF _ _ _ _ _ _ _ _ _ (by assumption) hr))
                    · simp at h
                  · split at h
                    · simp at h
                    · simp at h
                    · cases h
                      rcases hz2 with hv | hr
                      · exact (isZeroFields_cons_iff _ _).mpr (Or.inl hv)
                      · exact (isZeroFields_cons_iff _ _).mpr
                          (Or.inr (ihF _ _ _ _ _ _ _ _ _ (by assumption) hr))
                    · simp at h
                  · split at h
                    · simp at h
                    · simp at h
                    · rename_i nf ne' v' rels2 heqn
                      split at h
                      · split at h
                        · simp at h
                        · simp at h
                        · cases h
                          rcases hz2 with hv | hr
                          · exact (isZeroFields_cons_iff _ _).mpr
                              (Or.inl (ihN _ _ _ _ _ _ _ _ heqn hv))
                          · exact (isZeroFields_cons_iff _ _).mpr
                              (Or.inr (ihF _ _ _ _ _ _ _ _ _ (by assumption) hr))
                        · simp at h
                      · split at h
                        · simp at h
                        · simp at h
                        · cases h
                          rcases hz2 with hv | hr
                          · exact (isZeroFields_cons_iff _ _).mpr
                              (Or.inl (ihN _ _ _ _ _ _ _ _ heqn hv))
                          · exact (isZeroFields_cons_iff _ _).mpr
                              (Or.inr (ihF _ _ _ _ _ _ _ _ _ (by assumption) hr))
                        · simp at h
                    · simp at h
      · -- sliceLoop
        intro path i elems jArr rels f e vs' r' h hz
        cases elems with
        | nil => simp [isZeroList] at hz
        | cons x rest =>
            have hz2 := (isZeroList_cons_iff x rest).mp hz
            simp only [walk] at h
            split at h
            · simp at h
            · split at h
              · simp at h
              · simp at h
              · rename_i cf ce e' rels1 heqn
                split at h
                · split at h
                  · simp at h
                  · simp at h
                  · split at h
                    · cases h
                      rcases hz2 with hv | hr
                      · exact (isZeroList_cons_iff _ _).mpr
                          (Or.inl (ihN _ _ _ _ _ _ _ _ heqn hv))
                      · exact (isZeroList_cons_iff _ _).mpr
                          (Or.inr (ihL _ _ _ _ _ _ _ _ _ (by assumption) hr))
                    · cases h
                      rcases hz2 with hv | hr
                      · exact (isZeroList_cons_iff _ _).mpr
                          (Or.inl (ihN _ _ _ _ _ _ _ _ heqn hv))
                      · exact (isZeroList_cons_iff _ _).mpr
                          (Or.inr (ihL _ _ _ _ _ _ _ _ _ (by assumption) hr))
                  · simp at h
                · cases h
                  rcases hz2 with hv | hr
                  · exact (isZeroList_cons_iff _ _).mpr
                      (Or.inl (ihN _ _ _ _ _ _ _ _ heqn hv))
                  · exact (isZeroList_cons_iff _ _).mpr (Or.inr hr)
              · simp at h

lemma mk_exported (a b c : String) (e : Bool) (v : MVal) :
    (⟨a, b, c, e, v⟩ : MField).exported = e := rfl

lemma mk_name (a b c : String) (e : Bool) (v : MVal) :
    (⟨a, b, c, e, v⟩ : MField).name = a := rfl

lemma mk_jshTag (a b c : String) (e : Bool) (v : MVal) :
    (⟨a, b, c, e, v⟩ : MField).jshTag = c := rfl

lemma mk_value (a b c : String) (e : Bool) (v : MVal) :
    (⟨a, b, c, e, v⟩ : MField).value = v := rfl

lemma mk_jsonTag (a b c : String) (e : Bool) (v : MVal) :
    (⟨a, b, c, e, v⟩ : MField).jsonTag = b := rfl

lemma decodeJSONTag_mk (f : MField) (e : Bool) (v : MVal) :
    decodeJSONTag ⟨f.name, f.jsonTag, f.jshTag, e, v⟩ = decodeJSONTag f := rfl

lemma validateModelField_true_elim (path : String) (v : MVal) (opts : Option TagOpts)
    (h : validateModelField path v opts = (true, none)) :
    isZero v = false ∧ opts ≠ none := by
  unfold validateModelField at h
  split at h
  · split at h <;> simp at h
  · rename_i hz
    split at h
    · simp at h
    · exact ⟨by revert hz; cases isZero v <;> simp, by simp_all⟩

lemma validateModelField_true_intro (path : String) (v : MVal) (opts : Option TagOpts)
    (hz : isZero v = false) (ho : opts ≠ none) :
    validateModelField path v opts = (true, none) := by
  unfold validateModelField
  rw [if_neg (by simp [hz])]
  cases opts with
  | none => exact absurd rfl ho
  | some o => rfl

/-- Re-running the walker on its own error-free output model, with the same
raw input and the same (restored) relationship set, reproduces the identical
result: matched paths, output model, and remaining relationship set. -/
lemma walk_revalidate (action : String) :
    ∀ (fuel : Nat),
      (∀ path flds j rels F flds' rels',
        walk action fuel (.vstruct path flds j) rels
          = some (.ok F [] (.strukt flds') rels') →
        walk action fuel (.vstruct path flds' j) rels
          = some (.ok F [] (.strukt flds') rels'))
      ∧ (∀ path flds attrs rels F flds' leftover rels',
        walk action fuel (.floop path flds attrs) rels
          = some (.ok F [] (.loopOut flds' leftover) rels') →
        walk action fuel (.floop path flds' attrs) rels
          = some (.ok F [] (.loopOut flds' leftover) rels'))
      ∧ (∀ path fv j rels F v' rels',
        walk action fuel (.nested path fv j) rels
          = some (.ok F [] (.val v') rels') →
        walk action fuel (.nested path v' j) rels
          = some (.ok F [] (.val v') rels'))
      ∧ (∀ path i elems jArr rels F vs' rels',
        walk action fuel (.sliceLoop path i elems jArr) rels
          = some (.ok F [] (.elems vs') rels') →
        walk action fuel (.sliceLoop path i vs' jArr) rels
          = some (.ok F [] (.elems vs') rels'))
      ∧ (∀ path es jv rels F es' rels',
        walk action fuel (.mapLoop path es jv) rels
          = some (.ok F [] (.entries es') rels') →
        walk action fuel (.mapLoop path es' jv) rels
          = some (.ok F [] (.entries es') rels')) := by
  intro fuel
  induction fuel with
  | zero =>
      refine ⟨?_, ?_, ?_, ?_, ?_⟩
      · intro p flds j rels F flds' rels' h; simp [walk] at h
      · intro p flds attrs rels F flds' lo rels' h; simp [walk] at h
      · intro p fv j rels F v' rels' h; simp [walk] at h
      · intro p i elems jArr rels F vs' rels' h; simp [walk] at h
      · intro p es jv rels F es' rels' h; simp [walk] at h
  | succ n ih =>
      obtain ⟨ihS, ihF, ihN, ihL, ihM⟩ := ih
      refine ⟨?_, ?_, ?_, ?_, ?_⟩
      · -- vstruct
        intro path flds j rels F flds' rels' h
        simp only [walk] at h
        split at h
        · simp at h
        · rename_i attrs0 hdk
          split at h
          · simp at h
          · rename_i res heqf
            injection h with h'
            cases res with
            | crash => simp [structFinish] at h'
            | ok Ff Ef out r1 =>
                cases out with
                | loopOut flds1 leftover1 =>
                    simp only [structFinish] at h'
                    split at h'
                    · rename_i hemp
                      injection h' with hF hE hO hR
                      injection hO with hO2
                      rw [List.isEmpty_iff] at hemp
                      have h1 := List.append_eq_nil.mp hemp
                      have h2 := List.append_eq_nil.mp h1.1
                      have hEf : Ef = [] := h2.1
                      have hlft : leftover1 = [] := by
                        have := congrArg List.length h2.2
                        simpa using List.eq_nil_of_length_eq_zero (by simpa using this)
                      have hr1 : r1 = [] := by
                        have := congrArg List.length h1.2
                        simpa using List.eq_nil_of_length_eq_zero (by simpa using this)
                      rw [hEf] at heqf
                      have ihf2 := ihF path flds attrs0 rels Ff flds1 leftover1 r1 heqf
                      rw [← hF, ← hO2, ← hR]
                      simp only [walk, hdk, ihf2, structFinish, hlft, hr1]
                      simp
                    · rename_i hemp
                      injection h' with h1 h2 h3 h4
                      rw [h2] at hemp
                      simp at hemp
                | val v => simp [structFinish] at h'
                | strukt fs => simp [structFinish] at h'
                | elems vs => simp [structFinish] at h'
                | entries es => simp [structFinish] at h'
      · -- floop
        intro path flds attrs rels F flds' leftover rels' h
        cases flds with
        | nil =>
            simp only [walk, Option.some.injEq] at h
            cases h
            simp [walk]
        | cons f rest =>
            simp only [walk] at h
            split at h
            · -- unexported field
              rename_i hexp
              split at h
              · simp at h
              · simp at h
              · rename_i fr er rest' leftover1 rels2 heqr
                injection h with h'
                injection h' with hF hE hO hR
                injection hO with hO1 hO2
                rw [List.nil_append] at hE
                rw [hE] at heqr
                have ihr2 := ihF path rest attrs rels fr rest' leftover1 rels2 heqr
                rw [← hF, ← hO1, ← hO2, ← hR]
                simp only [walk, hexp, ihr2]
                simp
              · simp at h
            · rename_i hexp
              split at h
              · -- relationship field
                rename_i hrel
                split at h
                · -- validation error: excluded by errorlessness
                  split at h
                  · simp at h
                  · simp at h
                  · injection h with h'
                    injection h' with hF hE hO hR
                    simp at hE
                  · simp at h
                · -- accepted
                  rename_i hvr
                  split at h
                  · simp at h
                  · rename_i r0 hfr
                    split at h
                    · simp at h
                    · -- assignment error: excluded
                      split at h
                      · simp at h
                      · simp at h
                      · injection h with h'
                        injection h' with hF hE hO hR
                        simp at hE
                      · simp at h
                    · -- assignment success
                      rename_i v' hset
                      split at h
                      · simp at h
                      · simp at h
                      · rename_i fr er rest' leftover1 rels2 heqr
                        injection h with h'
                        injection h' with hF hE hO hR
                        injection hO with hO1 hO2
                        rw [List.nil_append] at hE
                        rw [hE] at heqr
                        have ihr2 := ihF path rest attrs _ fr rest' leftover1 rels2 heqr
                        have hidem := setModelRelationship_idem _ _ _ _ _ hset
                        rw [hfr] at hvr
                        rw [← hF, ← hO1, ← hO2, ← hR]
                        simp only [walk, mk_exported, mk_name, mk_jshTag, mk_value,
                          mk_jsonTag, decodeJSONTag_mk, hexp, hrel, hvr, hfr, hidem, ihr2]
                        simp
                      · simp at h
                · -- absent and not required: skipped
                  rename_i hvr
                  split at h
                  · simp at h
                  · simp at h
                  · rename_i fr er rest' leftover1 rels2 heqr
                    injection h with h'
                    injection h' with hF hE hO hR
                    injection hO with hO1 hO2
                    rw [List.nil_append] at hE
                    rw [hE] at heqr
                    have ihr2 := ihF path rest attrs _ fr rest' leftover1 rels2 heqr
                    rw [← hF, ← hO1, ← hO2, ← hR]
                    simp only [walk, hexp, hrel, hvr, ihr2]
                    simp
                  · simp at h
              · -- ordinary attribute field
                rename_i hrelneg
                split at h
                · -- json "-": skipped
                  rename_i hdash
                  split at h
                  · simp at h
                  · simp at h
                  · rename_i fr er rest' leftover1 rels2 heqr
                    injection h with h'
                    injection h' with hF hE hO hR
                    injection hO with hO1 hO2
                    rw [List.nil_append] at hE
                    rw [hE] at heqr
                    have ihr2 := ihF path rest attrs rels fr rest' leftover1 rels2 heqr
                    rw [← hF, ← hO1, ← hO2, ← hR]
                    simp only [walk, hexp, hrelneg, hdash, ihr2]
                    simp
                  · simp at h
                · rename_i hdash
                  split at h
                  · -- field validation error: excluded
                    split at h
                    · simp at h
                    · simp at h
                    · injection h with h'
                      injection h' with hF hE hO hR
                      simp at hE
                    · simp at h
                  · -- absent: skipped
                    rename_i hvf
                    split at h
                    · simp at h
                    · simp at h
                    · rename_i fr er rest' leftover1 rels2 heqr
                      injection h with h'
                      injection h' with hF hE hO hR
                      injection hO with hO1 hO2
                      rw [List.nil_append] at hE
                      rw [hE] at heqr
                      have ihr2 := ihF path rest _ rels fr rest' leftover1 rels2 heqr
                      rw [← hF, ← hO1, ← hO2, ← hR]
                      simp only [walk, hexp, hrelneg, hdash, hvf, ihr2]
                      simp
                    · simp at h
                  · -- accepted: nested recursion
                    rename_i hvf
                    split at h
                    · simp at h
                    · simp at h
                    · rename_i nf ne v1 rels1 heqn
                      split at h
                      · -- nested errorless
                        rename_i hne
                        split at h
                        · simp at h
                        · simp at h
                        · rename_i fr er rest' leftover1 rels2 heqr
                          injection h with h'
                          injection h' with hF hE hO hR
                          injection hO with hO1 hO2
                          have hEr : er = [] := (List.append_eq_nil.mp hE).2
                          have hNf : ne = [] := List.isEmpty_iff.mp hne
                          rw [hEr] at heqr
                          rw [hNf] at heqn
                          have ihn2 := ihN _ _ _ _ _ _ _ heqn
                          have ihr2 := ihF path rest _ _ fr rest' leftover1 rels2 heqr
                          obtain ⟨hz, ho⟩ := validateModelField_true_elim _ _ _ hvf
                          have hz1 : isZero v1 = false :=
                            (walk_zero_mono action n).1 _ _ _ _ _ _ _ _ heqn hz
                          have hvf2 := validateModelField_true_intro
                            (joinPath path (decodeJSONTag f)) v1
                            (lookupKey (decodeFieldTags f.jshTag) action) hz1 ho
                          rw [← hF, ← hO1, ← hO2, ← hR]
                          simp only [walk, mk_exported, mk_name, mk_jshTag, mk_value,
                            mk_jsonTag, decodeJSONTag_mk, hexp, hrelneg, hdash, hvf2,
                            ihn2, ihr2]
                          simp [hE, hNf]
                        · simp at h
                      · -- nested errored: contradicts errorlessness
                        rename_i hne
                        split at h
                        · simp at h
                        · simp at h
                        · injection h with h'
                          injection h' with hF hE hO hR
                          have : ne = [] := (List.append_eq_nil.mp hE).1
                          rw [this] at hne
                          simp at hne
                        · simp at h
                    · simp at h
      · -- nested
        intro path fv j rels F v' rels' h
        cases fv with
        | vStr s =>
            simp only [walk, Option.some.injEq] at h
            injection h with hF hE hO hR
            injection hO with hO2
            rw [← hF, ← hO2, ← hR]
            simp [walk]
        | vInt m =>
            simp only [walk, Option.some.injEq] at h
            injection h with hF hE hO hR
            injection hO with hO2
            rw [← hF, ← hO2, ← hR]
            simp [walk]
        | vBool b =>
            simp only [walk, Option.some.injEq] at h
            injection h with hF hE hO hR
            injection hO with hO2
            rw [← hF, ← hO2, ← hR]
            simp [walk]
        | vRaw j0 =>
            simp only [walk, Option.some.injEq] at h
            injection h with hF hE hO hR
            injection hO with hO2
            rw [← hF, ← hO2, ← hR]
            simp [walk]
        | vPtr v0 =>
            cases v0 with
            | none =>
                simp only [walk, Option.some.injEq] at h
                injection h with hF hE hO hR
                injection hO with hO2
                rw [← hF, ← hO2, ← hR]
                simp [walk]
            | some w =>
                simp only [walk] at h
                split at h
                · simp at h
                · simp at h
                · rename_i nf ne w1 rels1 heqn
                  injection h with h'
                  injection h' with hF hE hO hR
                  injection hO with hO2
                  rw [hE] at heqn
                  have ihn2 := ihN path w j rels nf w1 rels1 heqn
                  rw [← hF, ← hO2, ← hR]
                  simp only [walk, ihn2]
                · simp at h
        | vIDObj v0 =>
            cases v0 with
            | none =>
                simp only [walk, Option.some.injEq] at h
                injection h with hF hE hO hR
                injection hO with hO2
                rw [← hF, ← hO2, ← hR]
                simp [walk]
            | some o =>
                simp only [walk] at h
                split at h
                · simp at h
                · simp at h
                · rename_i sf se fs2 rels1 heqs
                  split at h
                  · rename_i hemp
                    injection h with h'
                    injection h' with hF hE hO hR
                    injection hO with hO2
                    rw [← hF, ← hO2, ← hR]
                    simp only [walk, heqs]
                    simp [hemp]
                  · injection h with h'
                    injection h' with hF hE hO hR
                    rename_i hemp
                    rw [hE] at hemp
                    simp at hemp
                · simp at h
        | vSlice o =>
            cases o with
            | none =>
                simp only [walk] at h
                split at h
                · simp at h
                · rename_i jArr hds
                  split at h
                  · simp at h
                  · simp at h
                  · rename_i sf se vs1 rels1 heqsl
                    split at h
                    · rename_i hemp
                      injection h with h'
                      injection h' with hF hE hO hR
                      injection hO with hO2
                      rw [← hF, ← hO2, ← hR]
                      simp only [walk, hds, heqsl]
                      simp [hemp]
                    · rename_i hemp
                      injection h with h'
                      injection h' with hF hE hO hR
                      rw [hE] at hemp
                      simp at hemp
                  · simp at h
            | some es =>
                simp only [walk] at h
                split at h
                · simp at h
                · rename_i jArr hds
                  split at h
                  · simp at h
                  · simp at h
                  · rename_i sf se vs1 rels1 heqsl
                    split at h
                    · rename_i hemp
                      injection h with h'
                      injection h' with hF hE hO hR
                      injection hO with hO2
                      rw [List.isEmpty_iff] at hemp
                      rw [hemp] at heqsl
                      have ihl2 := ihL path 0 es jArr rels sf vs1 rels1 heqsl
                      rw [← hF, ← hO2, ← hR]
                      simp only [walk, hds, Option.getD_some, ihl2]
                      simp
                    · rename_i hemp
                      injection h with h'
                      injection h' with hF hE hO hR
                      rw [hE] at hemp
                      simp at hemp
                  · simp at h
        | vArray es =>
            simp only [walk] at h
            split at h
            · simp at h
            · rename_i jArr hds
              split at h
              · simp at h
              · simp at h
              · rename_i sf se vs1 rels1 heqsl
                split at h
                · rename_i hemp
                  injection h with h'
                  injection h' with hF hE hO hR
                  injection hO with hO2
                  rw [List.isEmpty_iff] at hemp
                  rw [hemp] at heqsl
                  have ihl2 := ihL path 0 es jArr rels sf vs1 rels1 heqsl
                  rw [← hF, ← hO2, ← hR]
                  simp only [walk, hds, ihl2]
                  simp
                · rename_i hemp
                  injection h with h'
                  injection h' with hF hE hO hR
                  rw [hE] at hemp
                  simp at hemp
              · simp at h
        | vMapStr o =>
            cases o with
            | none =>
                simp only [walk] at h
                split at h
                · simp at h
                · rename_i jsonValues hdk
                  split at h
                  · simp at h
                  · simp at h
                  · rename_i mf me es1 rels1 heqm
                    split at h
                    · rename_i hemp
                      injection h with h'
                      injection h' with hF hE hO hR
                      injection hO with hO2
                      rw [← hF, ← hO2, ← hR]
                      simp only [walk, hdk, heqm]
                      simp [hemp]
                    · rename_i hemp
                      injection h with h'
                      injection h' with hF hE hO hR
                      rw [hE] at hemp
                      simp at hemp
                  · simp at h
            | some es =>
                simp only [walk] at h
                split at h
                · simp at h
                · rename_i jsonValues hdk
                  split at h
                  · simp at h
                  · simp at h
                  · rename_i mf me es1 rels1 heqm
                    split at h
                    · rename_i hemp
                      injection h with h'
                      injection h' with hF hE hO hR
                      injection hO with hO2
                      rw [List.isEmpty_iff] at hemp
                      rw [hemp] at heqm
                      have hkeys := walk_mapLoop_keys action n _ _ _ _ _ _ _ _ heqm
                      have hsorted1 : List.Chain' (fun a b : String × MVal => a.1 ≤ b.1) es1 := by
                        rw [← List.chain'_map Prod.fst]
                        rw [hkeys]
                        rw [List.chain'_map Prod.fst]
                        exact sortEntries_sorted es
                      have hs1 : sortEntries es1 = es1 := sortEntries_eq_self es1 hsorted1
                      have ihm2 := ihM path (sortEntries es) jsonValues rels mf es1 rels1 heqm
                      rw [← hF, ← hO2, ← hR]
                      simp only [walk, hdk, Option.getD_some, hs1, ihm2]
                      simp
                    · rename_i hemp
                      injection h with h'
                      injection h' with hF hE hO hR
                      rw [hE] at hemp
                      simp at hemp
                  · simp at h
        | vMapInt o =>
            simp only [walk, Option.some.injEq] at h
            injection h with hF hE hO hR
            simp at hE
        | vRelManyStr o =>
            simp only [walk] at h
            split at h
            · simp at h
            · rename_i jsonValues hdk
              split at h
              · simp at h
              · simp at h
              · rename_i mf me es1 rels1 heqm
                split at h
                · rename_i hemp
                  injection h with h'
                  injection h' with hF hE hO hR
                  injection hO with hO2
                  rw [← hF, ← hO2, ← hR]
                  simp only [walk, hdk, heqm]
                  simp [hemp]
                · rename_i hemp
                  injection h with h'
                  injection h' with hF hE hO hR
                  rw [hE] at hemp
                  simp at hemp
              · simp at h
        | vRelManyInt o =>
            simp only [walk, Option.some.injEq] at h
            injection h with hF hE hO hR
            simp at hE
        | vStruct flds =>
            simp only [walk] at h
            split at h
            · simp at h
            · simp at h
            · rename_i sf se flds2 rels1 heqs
              split at h
              · rename_i hemp
                injection h with h'
                injection h' with hF hE hO hR
                injection hO with hO2
                rw [List.isEmpty_iff] at hemp
                rw [hemp] at heqs
                have ihs2 := ihS path flds j rels sf flds2 rels1 heqs
                rw [← hF, ← hO2, ← hR]
                simp only [walk, ihs2]
                simp
              · rename_i hemp
                injection h with h'
                injection h' with hF hE hO hR
                rw [hE] at hemp
                simp at hemp
            · simp at h
      · -- sliceLoop
        intro path i elems jArr rels F vs' rels' h
        cases elems with
        | nil =>
            simp only [walk, Option.some.injEq] at h
            injection h with hF hE hO hR
            injection hO with hO2
            rw [← hF, ← hO2, ← hR]
            simp [walk]
        | cons x rest =>
            simp only [walk] at h
            split at h
            · simp at h
            · rename_i jv0 hjv
              split at h
              · simp at h
              · simp at h
              · rename_i cf ce x1 rels1 heqn
                split at h
                · rename_i hce
                  split at h
                  · simp at h
                  · simp at h
                  · rename_i rf re rest1 rels2 heqr
                    split at h
                    · rename_i hre
                      injection h with h'
                      injection h' with hF hE hO hR
                      injection hO with hO2
                      rw [List.isEmpty_iff] at hce hre
                      rw [hce] at heqn
                      rw [hre] at heqr
                      have ihn2 := ihN _ _ _ _ _ _ _ heqn
                      have ihl2 := ihL path (i + 1) rest jArr rels1 rf rest1 rels2 heqr
                      rw [← hF, ← hO2, ← hR]
                      simp only [walk, hjv, ihn2, ihl2]
                      simp
                    · rename_i hre
                      injection h with h'
                      injection h' with hF hE hO hR
                      rw [hE] at hre
                      simp at hre
                  · simp at h
                · rename_i hce
                  injection h with h'
                  injection h' with hF hE hO hR
                  rw [hE] at hce
                  simp at hce
              · simp at h
      · -- mapLoop
        intro path es jv rels F es' rels' h
        cases es with
        | nil =>
            simp only [walk, Option.some.injEq] at h
            injection h with hF hE hO hR
            injection hO with hO2
            rw [← hF, ← hO2, ← hR]
            simp [walk]
        | cons x rest =>
            simp only [walk] at h
            split at h
            · simp at h
            · simp at h
            · rename_i cf ce x1 rels1 heqn
              split at h
              · rename_i hce
                split at h
                · simp at h
                · simp at h
                · rename_i rf re rest1 rels2 heqr
                  split at h
                  · rename_i hre
                    injection h with h'
                    injection h' with hF hE hO hR
                    injection hO with hO2
                    rw [List.isEmpty_iff] at hce hre
                    rw [hce] at heqn
                    rw [hre] at heqr
                    have ihn2 := ihN _ _ _ _ _ _ _ heqn
                    have ihm2 := ihM path rest jv rels1 rf rest1 rels2 heqr
                    rw [← hF, ← hO2, ← hR]
                    simp only [walk, ihn2, ihm2]
                    simp
                  · rename_i hre
                    injection h with h'
                    injection h' with hF hE hO hR
                    rw [hE] at hre
                    simp at hre
                · simp at h
              · rename_i hce
                injection h with h'
                injection h' with hF hE hO hR
                rw [hE] at hce
                simp at hce
            · simp at h

/-- Claim C8, counterexample: `Validate` consumes the relationship set it is
given (the Go code deletes matched names from the validator's shared map), so
a second call on the same validator - same action, same raw attribute bytes,
already-matched model, and the relationship set the first call left behind,
now empty - returns the matched-path set `[]` instead of the first call's
`["group"]`. -/
theorem C8_counterexample_same_validator :
    matchedOf (Validate 20 "create" (.vPtr (some (.vStruct c8Flds))) none c8Rels)
      = ["group"]
    ∧ errsOf (Validate 20 "create" (.vPtr (some (.vStruct c8Flds))) none c8Rels) = []
    ∧ modelOf (Validate 20 "create" (.vPtr (some (.vStruct c8Flds))) none c8Rels)
        = some (.vPtr (some (.vStruct c8FldsSet)))
    ∧ relsOf (Validate 20 "create" (.vPtr (some (.vStruct c8Flds))) none c8Rels) = []
    ∧ matchedOf (Validate 20 "create" (.vPtr (some (.vStruct c8FldsSet))) none [])
        = [] :=
  ⟨rfl, rfl, rfl, rfl, rfl⟩

/-- Claim C8 (amended): if an error-free `Validate` call is re-run on the
model it produced - same action, same raw attribute bytes, and the
relationship set restored to its original contents - it reproduces the
identical result: the same matched-path set, no errors, the same (fixpoint)
model, and the same remaining relationship set. -/
theorem C8_amended_revalidation_reproduces
    (fuel : Nat) (action : String) (model : MVal) (attrsJ : Option JSON)
    (rels : Rels) (F : List String) (out : MVal) (rels' : Rels)
    (h : Validate fuel action model attrsJ rels
          = some (.ok F [] (.val out) rels')) :
    Validate fuel action out attrsJ rels = some (.ok F [] (.val out) rels') := by
  cases model with
  | vPtr o =>
      cases o with
      | none => simp [Validate] at h
      | some inner =>
          cases inner with
          | vStruct flds =>
              simp only [Validate] at h
              split at h
              · simp at h
              · simp at h
              · rename_i f e flds2 rels2 heqw
                injection h with h'
                injection h' with hF hE hO hR
                injection hO with hO1
                rw [hE] at heqw
                rw [← hO1, ← hF, ← hR]
                have hw2 := (walk_revalidate action fuel).1 "" flds attrsJ rels
                  f flds2 rels2 heqw
                simp only [Validate, hw2]
              · simp at h
          | vStr s => simp [Validate] at h
          | vInt m => simp [Validate] at h
          | vBool b => simp [Validate] at h
          | vRaw j0 => simp [Validate] at h
          | vPtr o2 => simp [Validate] at h
          | vIDObj o2 => simp [Validate] at h
          | vSlice o2 => simp [Validate] at h
          | vArray es => simp [Validate] at h
          | vMapStr o2 => simp [Validate] at h
          | vMapInt o2 => simp [Validate] at h
          | vRelManyStr o2 => simp [Validate] at h
          | vRelManyInt o2 => simp [Validate] at h
  | vIDObj o =>
      cases o with
      | none => simp [Validate] at h
      | some obj =>
          simp only [Validate] at h
          split at h
          · simp at h
          · simp at h
          · rename_i f e flds2 rels2 heqw
            injection h with h'
            injection h' with hF hE hO hR
            injection hO with hO1
            rw [hE] at heqw
            rw [← hO1, ← hF, ← hR]
            simp only [Validate, heqw]
          · simp at h
  | vStr s => simp [Validate] at h
  | vInt m => simp [Validate] at h
  | vBool b => simp [Validate] at h
  | vRaw j0 => simp [Validate] at h
  | vSlice o2 => simp [Validate] at h
  | vArray es => simp [Validate] at h
  | vMapStr o2 => simp [Validate] at h
  | vMapInt o2 => simp [Validate] at h
  | vRelManyStr o2 => simp [Validate] at h
  | vRelManyInt o2 => simp [Validate] at h
  | vStruct flds => simp [Validate] at h

/-- Witness for claim C8 (amended) at the concrete to-one model: the first
validation matches `["group"]` and binds the relationship into the model, and
re-validating that output model with the relationship set restored reproduces
the identical result. -/
theorem C8_amended_witness :
    Validate 20 "create" (.vPtr (some (.vStruct c8Flds))) none c8Rels
      = some (.ok ["group"] [] (.val (.vPtr (some (.vStruct c8FldsSet)))) [])
    ∧ Validate 20 "create" (.vPtr (some (.vStruct c8FldsSet))) none c8Rels
      = some (.ok ["group"] [] (.val (.vPtr (some (.vStruct c8FldsSet)))) []) :=
  ⟨rfl, C8_amended_revalidation_reproduces 20 "create"
    (.vPtr (some (.vStruct c8Flds))) none c8Rels ["group"]
    (.vPtr (some (.vStruct c8FldsSet))) [] rfl⟩
